import Mathlib

/-!
Verification development for the audio-database repository
(`src/AudioDatabase.ts`, `src/BlobStore.ts`).

The TypeScript code is shallowly embedded: the mutable `Map`s of the
source become insertion-ordered association lists (`JMap`), the
`@freik/core-utils` `MultiMap` becomes `MMap`, and every mutating
member function becomes a state-passing Lean function that follows the
source line by line.  External collaborators that are not part of this
repository (the `normalizeName` helpers, the xxHash-32 hash, the
ToB64 encoder, and the AFI song-key registry) are passed in as explicit
function parameters, mirroring how the source calls into
`@freik/core-utils` / `xxhashjs` / `AudioFileIndex`.
-/

namespace AudioDB

/-- Insertion-ordered association list modelling a JavaScript `Map`.
JS maps have unique keys; `set` replaces in place (keeping the original
insertion position, as JS does) and `del` drops the key. -/
abbrev JMap (K V : Type) := List (K × V)

/-- Models `Map.get`: the value at the first matching key. -/
def JMap.get {K V : Type} [DecidableEq K] (m : JMap K V) (k : K) : Option V :=
  match m with
  | [] => none
  | (k2, v) :: rest => if k2 = k then some v else JMap.get rest k

/-- Models `Map.set`: replace in place if the key is present, else append. -/
def JMap.set {K V : Type} [DecidableEq K] (m : JMap K V) (k : K) (v : V) : JMap K V :=
  match m with
  | [] => [(k, v)]
  | (k2, v2) :: rest => if k2 = k then (k, v) :: rest else (k2, v2) :: JMap.set rest k v

/-- Models `Map.delete`: drop the entry for the key (order of the other
entries is preserved, as in JS). -/
def JMap.del {K V : Type} [DecidableEq K] (m : JMap K V) (k : K) : JMap K V :=
  match m with
  | [] => []
  | (k2, v2) :: rest => if k2 = k then JMap.del rest k else (k2, v2) :: JMap.del rest k

/-- Models `Map.has`. -/
def JMap.has {K V : Type} [DecidableEq K] (m : JMap K V) (k : K) : Bool :=
  (JMap.get m k).isSome

/-- Models `Map.size`. -/
def JMap.size {K V : Type} (m : JMap K V) : Nat := m.length

/-- The `MultiMap` of `@freik/core-utils`: a map from keys to sets of
values, kept in insertion order.  Modelled from the spec and its uses in
this repository: `set` adds a value to the key's set, `remove` deletes a
value and drops the key once its set becomes empty (spec section 4.D:
"delete(k) removes the payload only when its key-set becomes empty";
spec section 3: "Deletion of the last song on an album removes the album
from the title index"). -/
abbrev MMap (K V : Type) := JMap K (List V)

/-- Models `MultiMap.get` (`undefined` when the key is absent). -/
def MMap.get {K V : Type} [DecidableEq K] (m : MMap K V) (k : K) : Option (List V) :=
  JMap.get m k

/-- Models `MultiMap.set`: add the value to the key's set. -/
def MMap.set {K V : Type} [DecidableEq K] [DecidableEq V] (m : MMap K V) (k : K) (v : V) :
    MMap K V :=
  match JMap.get m k with
  | none => JMap.set m k [v]
  | some vs => if v ∈ vs then m else JMap.set m k (vs ++ [v])

/-- Models `MultiMap.remove`: delete the value; the key is dropped when
its set becomes empty. -/
def MMap.remove {K V : Type} [DecidableEq K] [DecidableEq V] (m : MMap K V) (k : K) (v : V) :
    MMap K V :=
  match JMap.get m k with
  | none => m
  | some vs =>
    let vs2 := vs.erase v
    if vs2 = [] then JMap.del m k else JMap.set m k vs2

/-- Models `new Set([...])` in JS: deduplicate keeping first occurrences,
in insertion order. -/
def jsSetOf {α : Type} [DecidableEq α] (l : List α) : List α :=
  l.foldl (fun acc x => if x ∈ acc then acc else acc ++ [x]) []

/-- Models node's `path.dirname` for forward-slash paths: everything
before the final separator, `.` when there is none.  (The source only
compares directory names for equality.) -/
def dirname (p : String) : String :=
  if (p.data.contains (Char.ofNat 47)) = false then "."
  else String.mk (((p.data.reverse.dropWhile (fun c => c ≠ Char.ofNat 47)).drop 1).reverse)

/-!  Data model (`SongWithPath`, `Album`, `Artist` of `@freik/media-core`
as used by `AudioDatabase.ts`).  Keys are plain strings; `track` is a
natural number (JS numbers, non-negative in all uses). -/

/-- The `SongWithPath` record. -/
structure Song where
  path : String
  artistIds : List String
  secondaryIds : List String
  albumId : String
  track : Nat
  title : String
  key : String
  variations : Option (List String) := none
deriving Repr, DecidableEq

/-- The `Album` record (`diskNames` is an optional field, filled in by
`EnsureDiskNums`). -/
structure Album where
  year : Nat
  primaryArtists : List String
  title : String
  vatype : String
  songs : List String
  key : String
  diskNames : Option (List String) := none
deriving Repr, DecidableEq

/-- The `Artist` record. -/
structure Artist where
  name : String
  songs : List String
  albums : List String
  key : String
deriving Repr, DecidableEq

/-- The five in-memory maps of `PrivateAudioData` that the claims are
about (the AFI registry, picture map and keyword index are not part of
any claim and carry no graph state). -/
structure DBState where
  dbSongs : JMap String Song
  dbAlbums : JMap String Album
  dbArtists : JMap String Artist
  albumTitleIndex : MMap String String
  artistNameIndex : JMap String String
deriving Repr, DecidableEq

/-- The freshly constructed database. -/
def emptyDB : DBState := ⟨[], [], [], [], []⟩

/-- External collaborators of `AudioDatabase.ts`, passed as parameters:
`normalizeName` wraps `@freik/core-utils` text helpers; `mintArtistKey`
abstracts `newArtistKey` (it receives the normalized name, which is what
the source hashes); `mintAlbumKey` abstracts `newAlbumKey` (it receives
the `title*artist*year` summary string the source hashes); `getSongKey`
abstracts `GetIndexForPath(..).makeSongKey(..)`, returning `none` when
no AFI owns the path (the source throws there). -/
structure Ext where
  normalizeName : String → String
  mintArtistKey : String → String
  mintAlbumKey : String → String
  getSongKey : String → Option String

/-- The `string | string[]` type of `FullMetadata.artist`. -/
inductive StringOrList where
  | one (s : String)
  | many (l : List String)
deriving Repr, DecidableEq

/-- The `FullMetadata` record of `@freik/media-core`, restricted to the
fields `addOrUpdateSong` reads.  Absent optional fields are `none`. -/
structure FullMetadata where
  originalPath : String
  artist : StringOrList
  album : String
  year : Option Nat := none
  track : Nat
  title : String
  vaType : Option String := none
  moreArtists : Option (List String) := none
  variations : Option (List String) := none
  disk : Option Nat := none
  diskName : Option String := none
deriving Repr, DecidableEq

/-- The `typeof tmpArtist === 'string' ? [tmpArtist] : tmpArtist`
normalization at the top of `addOrUpdateSong`. -/
def mdArtists (md : FullMetadata) : List String :=
  match md.artist with
  | .one s => [s]
  | .many l => l

/-- The summary string hashed by `newAlbumKey`
(`norm(albumName)*norm(artistName)*year`). -/
def albumKeySummary (E : Ext) (albumName artistName : String) (year : Nat) : String :=
  E.normalizeName albumName ++ "*" ++ E.normalizeName artistName ++ "*" ++ toString year

/-- Models `Operations.ArraySetEqual` of `@freik/core-utils`: the two
arrays contain the same elements as sets. -/
def arraySetEqual {α : Type} [DecidableEq α] (a b : List α) : Bool :=
  a.all (fun x => b.contains x) && b.all (fun x => a.contains x)

/-- The `demoteArtists` closure of `getOrNewAlbum`: walking the primary
list from the end, every artist not in `common` is pushed onto the
secondary list and spliced out of the primary list. -/
def demoteArtists {α : Type} [DecidableEq α] (common primary second : List α) :
    List α × List α :=
  (primary.filter (fun x => common.contains x),
   second ++ (primary.filter (fun x => !common.contains x)).reverse)

/-- `EnsureDiskNums`: make sure the album's disk-name array covers
`diskNum` entries, filling new or empty slots ("" except the
`diskNum`-th slot, which receives `diskName || ''`), and preserving
previously set non-empty names. -/
def EnsureDiskNums (album : Album) (diskNum : Option Nat) (diskName : Option String) :
    Album :=
  match diskNum with
  | none => album
  | some dn =>
    let old := album.diskNames.getD []
    let newVal : Nat → String := fun i => if i + 1 = dn then diskName.getD "" else ""
    let overwrite : Nat → Bool := fun i =>
      match old.get? i with
      | none => true
      | some s => s = "" && (diskName.getD "") ≠ ""
    let updated := (List.range dn).map (fun i =>
      if overwrite i then newVal i else old.getD i "")
    { album with diskNames := some (updated ++ old.drop dn) }

/-- `getOrNewArtist`: resolve by normalized name through
`artistNameIndex`, otherwise mint a new key and record the artist in
both maps.  Returns the map slot holding the (aliased) artist object,
the object itself, and the updated state. -/
def getOrNewArtist (E : Ext) (db : DBState) (name : String) :
    String × Artist × DBState :=
  let fresh : String × Artist × DBState :=
    let key := E.mintArtistKey (E.normalizeName name)
    let artist : Artist := ⟨name, [], [], key⟩
    (key, artist,
      { db with
        artistNameIndex := JMap.set db.artistNameIndex (E.normalizeName name) key,
        dbArtists := JMap.set db.dbArtists key artist })
  match JMap.get db.artistNameIndex (E.normalizeName name) with
  | some maybeKey =>
    match JMap.get db.dbArtists maybeKey with
    | some art => (maybeKey, art, db)
    | none => fresh
  | none => fresh

/-- The result of `getOrNewAlbum`: the map slot holding the returned
album object, the object, the (possibly demoted) primary and secondary
artist-id arrays of the song being added, and the updated state. -/
structure AlbumHit where
  slot : String
  album : Album
  artists : List String
  secondaryArtists : List String
  db : DBState
deriving Repr, DecidableEq

/-- The body of the artist loop in the matched-album branch of
`getOrNewAlbum` ("ensure that the artists have this album in their
set"). -/
def ensureArtistAlbumStep (checkKey : String) (d : DBState) (art : String) : DBState :=
  match JMap.get d.dbArtists art with
  | none => d
  | some thisArtist =>
    if checkKey ∈ thisArtist.albums then d
    else { d with dbArtists := (JMap.set d.dbArtists art
             { thisArtist with albums := thisArtist.albums ++ [checkKey] }) }

/-- Demoting one song of the candidate album: move its non-common
primary artists to its secondary list. -/
def demoteSongStep (common : List String) (d2 : DBState) (sk : String) : DBState :=
  match JMap.get d2.dbSongs sk with
  | none => d2
  | some sng =>
    let ds := demoteArtists common sng.artistIds sng.secondaryIds
    { d2 with dbSongs := (JMap.set d2.dbSongs sk
        { sng with artistIds := ds.1, secondaryIds := ds.2 }) }

/-- One iteration of the candidate loop of `getOrNewAlbum` (the body of
`for (const albumKey of sharedNames)`): `none` means `continue`, `some`
means the candidate was returned. -/
def considerAlbum (E : Ext) (title : String) (year : Nat)
    (artists secondaryArtists : List String) (vatype : String) (dirName : String)
    (diskNum : Option Nat) (diskName : Option String) (db : DBState)
    (albumKey : String) : Option AlbumHit :=
  match JMap.get db.dbAlbums albumKey with
  | none => none
  | some check =>
    if E.normalizeName check.title ≠ E.normalizeName title then none
    else if check.year ≠ year then none
    else if check.vatype = vatype ∧ vatype ≠ "" then
      let check2 := EnsureDiskNums check diskNum diskName
      some ⟨albumKey, check2, artists, secondaryArtists,
        { db with dbAlbums := JMap.set db.dbAlbums albumKey check2 }⟩
    else if arraySetEqual check.primaryArtists artists then
      let db2 := artists.foldl (ensureArtistAlbumStep check.key) db
      let check2 := EnsureDiskNums check diskNum diskName
      some ⟨albumKey, check2, artists, secondaryArtists,
        { db2 with dbAlbums := JMap.set db2.dbAlbums albumKey check2 }⟩
    else
      match check.songs.head? with
      | none => none
      | some s0 =>
        match JMap.get db.dbSongs s0 with
        | none => none
        | some anotherSong =>
          if dirname anotherSong.path ≠ dirName then none
          else
            let common := check.primaryArtists.filter (fun x => artists.contains x)
            if common ≠ [] then
              let pr := demoteArtists common artists secondaryArtists
              let db2 := check.primaryArtists.reverse.foldl (fun d pa =>
                if common.contains pa then d
                else check.songs.foldl (demoteSongStep common) d) db
              let check2 := EnsureDiskNums check diskNum diskName
              some ⟨albumKey, check2, pr.1, pr.2,
                { db2 with dbAlbums := JMap.set db2.dbAlbums albumKey check2 }⟩
            else
              let check2 :=
                EnsureDiskNums { check with vatype := "va", primaryArtists := [] }
                  diskNum diskName
              some ⟨albumKey, check2, artists, secondaryArtists,
                { db with dbAlbums := JMap.set db.dbAlbums albumKey check2 }⟩

/-- The candidate loop of `getOrNewAlbum`, followed by the creation of a
fresh album when no candidate matched. -/
def getOrNewAlbumGo (E : Ext) (title : String) (year : Nat)
    (artists secondaryArtists : List String) (vatype : String) (dirName : String)
    (diskNum : Option Nat) (diskName : Option String) :
    List String → DBState → AlbumHit
  | [], db =>
    let key := E.mintAlbumKey (albumKeySummary E title
      (if vatype = "" then String.intercalate "/" artists else vatype) year)
    let album : Album :=
      { year := year, primaryArtists := if vatype = "" then artists else [],
        title := title, vatype := vatype, songs := [], key := key }
    let album2 := EnsureDiskNums album diskNum diskName
    ⟨key, album2, artists, secondaryArtists,
      { db with
        albumTitleIndex := MMap.set db.albumTitleIndex (E.normalizeName title) key,
        dbAlbums := JMap.set db.dbAlbums key album2 }⟩
  | albumKey :: rest, db =>
    match considerAlbum E title year artists secondaryArtists vatype dirName
        diskNum diskName db albumKey with
    | some hit => hit
    | none => getOrNewAlbumGo E title year artists secondaryArtists vatype dirName
        diskNum diskName rest db

/-- `getOrNewAlbum`: look up the candidates by normalized title and run
the loop. -/
def getOrNewAlbum (E : Ext) (title : String) (year : Nat)
    (artists secondaryArtists : List String) (vatype : String) (dirName : String)
    (diskNum : Option Nat) (diskName : Option String) (db : DBState) : AlbumHit :=
  let sharedNames := (MMap.get db.albumTitleIndex (E.normalizeName title)).getD []
  getOrNewAlbumGo E title year artists secondaryArtists vatype dirName
    diskNum diskName sharedNames db

/-- Resolving a list of artist names in order, accumulating the
`(slot, object)` pairs (the source's `allArtists`) and threading the
state. -/
def resolveArtists (E : Ext) (names : List String)
    (acc : List (String × Artist)) (db : DBState) :
    List (String × Artist) × DBState :=
  match names with
  | [] => (acc, db)
  | n :: rest =>
    let r := getOrNewArtist E db n
    resolveArtists E rest (acc ++ [(r.1, r.2.1)]) r.2.2

/-- The body of `allArtists.forEach` at the end of `addOrUpdateSong`:
push the new song key onto the artist's `songs` and, when absent, the
album key onto its `albums`. -/
def addSongToArtistStep (skey albKey : String) (d : DBState) (slot : String) : DBState :=
  match JMap.get d.dbArtists slot with
  | none => d
  | some artist =>
    let aAlbums := if artist.albums.contains albKey then artist.albums
                   else artist.albums ++ [albKey]
    let a2 : Artist := { artist with songs := artist.songs ++ [skey], albums := aAlbums }
    { d with dbArtists := JMap.set d.dbArtists slot a2 }

/-- `addOrUpdateSong`: resolve artists, resolve the album (possibly
demoting artists), build the song record, and register the song key on
the album and on every resolved artist.  `none` models the exception
thrown when the path resolves under no registered AFI. -/
def addOrUpdateSong (E : Ext) (md : FullMetadata) (db : DBState) : Option DBState :=
  let prim := resolveArtists E (mdArtists md) [] db
  let artistIds := prim.1.map (fun p => p.2.key)
  let sec := resolveArtists E (md.moreArtists.getD []) [] prim.2
  let secondaryIds := sec.1.map (fun p => p.2.key)
  let allArtistSlots := prim.1.map (fun p => p.1) ++ sec.1.map (fun p => p.1)
  let hit := getOrNewAlbum E md.album (md.year.getD 0) artistIds secondaryIds
    (md.vaType.getD "") (dirname md.originalPath) md.disk md.diskName sec.2
  match E.getSongKey md.originalPath with
  | none => none
  | some skey =>
    let theSong : Song :=
      { path := md.originalPath, artistIds := hit.artists,
        secondaryIds := hit.secondaryArtists, albumId := hit.album.key,
        track := md.track + (md.disk.getD 0) * 100, title := md.title,
        key := skey, variations := md.variations }
    let db3 :=
      match JMap.get hit.db.dbAlbums hit.slot with
      | none => hit.db
      | some alb => { hit.db with dbAlbums := (JMap.set hit.db.dbAlbums hit.slot
          { alb with songs := alb.songs ++ [skey] }) }
    let db4 := allArtistSlots.foldl (addSongToArtistStep skey hit.album.key) db3
    some { db4 with dbSongs := JMap.set db4.dbSongs skey theSong }

/-- The body of the album loop in `delSongByKey`'s surviving-artist
branch: if no remaining song of the album lists the artist, splice the
artist out of the album's `primaryArtists`.  `artistKey` is the loop
variable of the artist loop and `fieldKey` is `theArtist.key`. -/
def pruneArtistFromAlbumStep (artistKey fieldKey : String) (d : DBState)
    (albKey : String) : DBState :=
  match JMap.get d.dbAlbums albKey with
  | none => d
  | some album =>
    let removeFromAlbum := album.songs.all (fun k =>
      match JMap.get d.dbSongs k with
      | none => true
      | some sng =>
        !(sng.artistIds.contains artistKey) &&
        !(sng.secondaryIds.contains artistKey))
    if removeFromAlbum then
      if album.primaryArtists.contains fieldKey then
        { d with dbAlbums := (JMap.set d.dbAlbums albKey
            { album with primaryArtists := album.primaryArtists.erase fieldKey }) }
      else d
    else d

/-- One iteration of the artist loop of `delSongByKey` (`for (const
artistKey of artists)`): splice the song out of the artist, delete an
emptied artist from both maps, otherwise prune the artist from the
primary-artist lists of albums on which it no longer has any song. -/
def delArtistStep (E : Ext) (key : String) (db : DBState) (artistKey : String) :
    DBState :=
  match JMap.get db.dbArtists artistKey with
  | none => db
  | some theArtist =>
    if theArtist.songs.contains key then
      let songs2 := theArtist.songs.erase key
      if songs2 = [] then
        { db with
          dbArtists := JMap.del
            (JMap.set db.dbArtists artistKey { theArtist with songs := songs2 })
            theArtist.key,
          artistNameIndex := JMap.del db.artistNameIndex
            (E.normalizeName theArtist.name) }
      else
        let db2 := { db with dbArtists := (JMap.set db.dbArtists artistKey
            { theArtist with songs := songs2 }) }
        theArtist.albums.foldl (pruneArtistFromAlbumStep artistKey theArtist.key) db2
    else db

/-- `delSongByKey`: remove the song, splice it out of its album
(deleting an emptied album and its title-index entry), then run the
artist loop over the deduplicated primary and secondary artists. -/
def delSongByKey (E : Ext) (key : String) (db : DBState) : Bool × DBState :=
  match JMap.get db.dbSongs key with
  | none => (false, db)
  | some theSong =>
    let db1 := { db with dbSongs := JMap.del db.dbSongs key }
    let db2 :=
      match JMap.get db1.dbAlbums theSong.albumId with
      | none => db1
      | some theAlbum =>
        if theAlbum.songs.contains key then
          let songs2 := theAlbum.songs.erase key
          if songs2 = [] then
            let dbA := { db1 with dbAlbums := (JMap.del
                (JMap.set db1.dbAlbums theSong.albumId { theAlbum with songs := songs2 })
                theAlbum.key) }
            match MMap.get dbA.albumTitleIndex (E.normalizeName theAlbum.title) with
            | none => dbA
            | some _ => { dbA with albumTitleIndex :=
                (MMap.remove dbA.albumTitleIndex (E.normalizeName theAlbum.title)
                  theAlbum.key) }
          else
            { db1 with dbAlbums := (JMap.set db1.dbAlbums theSong.albumId
                { theAlbum with songs := songs2 }) }
        else db1
    let artists := jsSetOf (theSong.artistIds ++ theSong.secondaryIds)
    (true, artists.foldl (delArtistStep E key) db2)

/-- The `FlatAudioDatabase` returned by `getFlatDatabase`. -/
structure FlatAudioDatabase where
  songs : List Song
  artists : List Artist
  albums : List Album
deriving Repr, DecidableEq

/-- `getFlatDatabase`: the values of the three maps. -/
def getFlatDatabase (db : DBState) : FlatAudioDatabase :=
  ⟨db.dbSongs.map (fun p => p.2), db.dbArtists.map (fun p => p.2),
   db.dbAlbums.map (fun p => p.2)⟩

/-- JS `Math.round(track / 100)` for a natural `track` (round half
up). -/
def jsRoundDiv100 (track : Nat) : Nat := (track + 50) / 100

/-- `getDiskPiece`: `/` for `track < 99`, otherwise a `Disk N` piece,
with the disk name appended when the album has a non-empty name for that
disk. -/
def getDiskPiece (album : Album) (song : Song) : String :=
  if song.track < 99 then "/"
  else
    let diskNum := jsRoundDiv100 song.track
    match album.diskNames with
    | some names =>
      if names.length ≥ diskNum ∧ names.getD (diskNum - 1) "" ≠ "" then
        "/Disk " ++ toString diskNum ++ "- " ++ names.getD (diskNum - 1) "" ++ "/"
      else "/Disk " ++ toString diskNum ++ "/"
    | none => "/Disk " ++ toString diskNum ++ "/"

/-- `trackStr`: the two-digit zero-padded `track mod 100`. -/
def trackStr (track : Nat) : String :=
  let num := track % 100
  if num < 10 then "0" ++ toString num else toString num

/-!  Persistence (`save` / `load`).  `Pickle`/`Unpickle` and the
injected persist backend are external; the store is modelled as a map
from item names to unpickled values, where an unpickled value is either
an object with the (possibly missing) expected fields or some non-object
scalar (`Unpickle('0')`, the fallback for a missing blob, yields the
falsy number 0). -/

/-- The unpickled database blob: each field `Type.has` checks for may be
present or absent. -/
structure PickledDB where
  dbSongs : Option (JMap String Song)
  dbAlbums : Option (JMap String Album)
  dbArtists : Option (JMap String Artist)
  albumTitleIndex : Option (MMap String String)
  artistNameIndex : Option (JMap String String)
  indices : Option (List (String × Nat))
deriving Repr, DecidableEq

/-- A value unpickled from the persistence backend. -/
inductive PersistVal where
  | obj (p : PickledDB)
  | scalar
deriving Repr, DecidableEq

/-- The injected key-value persistence backend. -/
abbrev Persist := JMap String PersistVal

/-- `save`: pickle the five maps plus the AFI roster under the
persistence id. -/
def save (name : String) (db : DBState) (indices : List (String × Nat))
    (persist : Persist) : Persist :=
  JMap.set persist name (.obj
    ⟨some db.dbSongs, some db.dbAlbums, some db.dbArtists,
     some db.albumTitleIndex, some db.artistNameIndex, some indices⟩)

/-- `load`: unpickle the blob (a missing item unpickles to a falsy
scalar), verify all six required fields are present, and only then
install the five maps; on any failure return `false` with the state
untouched.  (AFI reconstruction from `indices` is external I/O and
carries no graph state.) -/
def load (name : String) (persist : Persist) (db : DBState) : Bool × DBState :=
  match JMap.get persist name with
  | none => (false, db)
  | some PersistVal.scalar => (false, db)
  | some (PersistVal.obj f) =>
    match f.dbSongs, f.dbAlbums, f.dbArtists, f.albumTitleIndex,
        f.artistNameIndex, f.indices with
    | some s, some al, some ar, some ti, some ni, some _ =>
      (true, { dbSongs := s, dbAlbums := al, dbArtists := ar,
               albumTitleIndex := ti, artistNameIndex := ni })
    | _, _, _, _, _, _ => (false, db)

/-!  The blob store (`BlobStore.ts`, the version with the reverse
`pathToKeys` map).  Keys are modelled after translation through the
injected `keyLookup` function (`xlate`); payloads are byte lists; the
`files` map models the payload files on disk, keyed by the generated
sequence-number filename. -/

namespace BlobStore

/-- The in-memory state of a blob store plus its payload files. -/
structure State where
  seqNum : Nat
  keyToPath : AudioDB.JMap String String
  pathToKeys : AudioDB.MMap String String
  files : AudioDB.JMap String (List Nat)
deriving Repr, DecidableEq

/-- The empty store. -/
def emptyStore : State := ⟨0, [], [], []⟩

/-- The filename produced by the `SeqNum('BLOB-')` generator (the
path-safe encoding is injective on these names). -/
def blobName (n : Nat) : String := "BLOB-" ++ toString n

/-- `putMany`: write the payload under a fresh sequence-number filename
and point every key at it, recording the reverse mapping. -/
def putMany (data : List Nat) (keys : List String) (s : State) : State :=
  let filename := blobName s.seqNum
  let s1 : State := ⟨s.seqNum + 1, s.keyToPath, s.pathToKeys,
    JMap.set s.files filename data⟩
  keys.foldl (fun st key =>
    ⟨st.seqNum, JMap.set st.keyToPath key filename,
     MMap.set st.pathToKeys filename key, st.files⟩) s1

/-- `delete`: for each key, drop its forward mapping, remove it from the
reverse mapping of its payload file, and remove the payload file when
the reverse key-set becomes empty.  (The trailing `saveIndex(sn())`
consumes one sequence number.) -/
def del (keys : List String) (s : State) : State :=
  let s2 := keys.foldl (fun st k =>
    match JMap.get st.keyToPath k with
    | none => st
    | some filename =>
      let st2 : State := ⟨st.seqNum, JMap.del st.keyToPath k,
        MMap.remove st.pathToKeys filename k, st.files⟩
      match MMap.get st2.pathToKeys filename with
      | none => { st2 with files := JMap.del st2.files filename }
      | some _ => st2) s
  { s2 with seqNum := s2.seqNum + 1 }

/-- `get`: read the payload file the key points at. -/
def get (k : String) (s : State) : Option (List Nat) :=
  match JMap.get s.keyToPath k with
  | none => none
  | some filename => JMap.get s.files filename

end BlobStore

/-!  The key minters (`newArtistKey` / `newAlbumKey`), with their
module-global hash tables.  The xxHash-32 `h32(seed).update(text)` call
and the `ToB64` encoder are external; they are parameters `hash` and
`enc`.  The probe loop of the source can run unboundedly, so it takes a
fuel argument; `none` means the fuel ran out. -/

/-- The two module-global hash tables of `AudioDatabase.ts`. -/
structure HashTables where
  artistHash : JMap Nat String
  albumHash : JMap Nat String
deriving Repr, DecidableEq

/-- The empty global tables (module load time). -/
def emptyTables : HashTables := ⟨[], []⟩

/-- The collision-probe loop shared by both minters: rehash with the
current hash as seed until the slot is free or holds this payload. -/
def probeHash (hash : Nat → String → Nat) (tbl : JMap Nat String) (payload : String) :
    Nat → Nat → Option Nat
  | _, 0 => none
  | h, fuel + 1 =>
    match JMap.get tbl h with
    | none => some h
    | some stored =>
      if stored = payload then some h
      else probeHash hash tbl payload (hash h payload) fuel

/-- `newArtistKey`: probe `artistHash` with the normalized name, claim
the slot, and return `R` plus the encoded hash. -/
def newArtistKey (nrm : String → String) (hash : Nat → String → Nat)
    (enc : Nat → String) (ht : HashTables) (artistName : String) (fuel : Nat) :
    Option (String × HashTables) :=
  let name := nrm artistName
  match probeHash hash ht.artistHash name (hash 0 name) fuel with
  | none => none
  | some h =>
    some ("R" ++ enc h, { ht with artistHash := JMap.set ht.artistHash h name })

/-- `newAlbumKey`: probe `albumHash` with the
`norm(album)*norm(artist)*year` summary and return `L` plus the encoded
hash.  NOTE (faithful to line 820 of the source): the claimed slot is
stored into `artistHash`, not `albumHash`, so `albumHash` never gains
entries. -/
def newAlbumKey (nrm : String → String) (hash : Nat → String → Nat)
    (enc : Nat → String) (ht : HashTables) (albumName artistName : String)
    (year : Nat) (fuel : Nat) : Option (String × HashTables) :=
  let artistSummary := nrm albumName ++ "*" ++ nrm artistName ++ "*" ++ toString year
  match probeHash hash ht.albumHash artistSummary (hash 0 artistSummary) fuel with
  | none => none
  | some h =>
    some ("L" ++ enc h, { ht with artistHash := JMap.set ht.artistHash h artistSummary })

/-!  Invariants of the database graph (spec section 3) and decidable
checkers used on concrete states. -/

/-- Spec invariants 1 and 2, as in claim C1: every song in `dbSongs`
has its key on its album's `songs` list and on the `songs` list of
every referenced (primary or secondary) artist. -/
def songRefsInv (db : DBState) : Prop :=
  ∀ k s, JMap.get db.dbSongs k = some s →
    ((∃ a, JMap.get db.dbAlbums s.albumId = some a ∧ s.key ∈ a.songs) ∧
     (∀ r, r ∈ s.artistIds ++ s.secondaryIds →
       ∃ art, JMap.get db.dbArtists r = some art ∧ s.key ∈ art.songs))

/-- Every map entry stores a record whose `key` field is its map key
(true of every state the source builds, since records are inserted
under their own keys). -/
def keysCoherent (db : DBState) : Prop :=
  (∀ k s, JMap.get db.dbSongs k = some s → s.key = k) ∧
  (∀ k a, JMap.get db.dbAlbums k = some a → a.key = k) ∧
  (∀ k r, JMap.get db.dbArtists k = some r → r.key = k)

/-- Every artist-name-index entry points at an existing artist (the
source logs a "DB inconsistency" error otherwise). -/
def artistIndexValid (db : DBState) : Prop :=
  ∀ n k, JMap.get db.artistNameIndex n = some k →
    ∃ r, JMap.get db.dbArtists k = some r

/-- The reachable-state facts the preservation theorems assume. -/
def GoodDB (db : DBState) : Prop :=
  songRefsInv db ∧ keysCoherent db ∧ artistIndexValid db

/-- Side conditions on the key minters, relative to a state: artist keys
are injective in the normalized name and fresh for names not yet in the
index; album keys are fresh (the hash-based minters of the source are
intended to guarantee exactly this). -/
def MintFresh (E : Ext) (db : DBState) : Prop :=
  (∀ n1 n2, E.mintArtistKey n1 = E.mintArtistKey n2 → n1 = n2) ∧
  (∀ n, JMap.get db.artistNameIndex n = none →
    JMap.get db.dbArtists (E.mintArtistKey n) = none) ∧
  (∀ s, JMap.get db.dbAlbums (E.mintAlbumKey s) = none)

/-- Decidable checker for spec invariant 3 / claim C2: for every artist
`r` and every album of `r.albums` present in `dbAlbums`, either `r` is
among the album's primary artists or some song of the album lists `r`
among its primary or secondary artists. -/
def artistAlbumsOk (db : DBState) : Bool :=
  db.dbArtists.all (fun p =>
    p.2.albums.all (fun albKey =>
      match JMap.get db.dbAlbums albKey with
      | none => true
      | some a =>
        a.primaryArtists.contains p.2.key ||
        a.songs.any (fun sk =>
          match JMap.get db.dbSongs sk with
          | none => false
          | some s =>
            s.artistIds.contains p.2.key || s.secondaryIds.contains p.2.key)))

/-- The facts threaded through the artist loop of `delSongByKey`: the
invariant for the surviving songs, record/key coherence, and the fact
that the deleted key is gone from `dbSongs`. -/
def DelInv (k : String) (d : DBState) : Prop :=
  songRefsInv d ∧ keysCoherent d ∧ JMap.get d.dbSongs k = none

/-- The facts threaded through `getOrNewAlbum` and the artist loop of
`addOrUpdateSong`: the invariant for the already-present songs,
record/key coherence, and presence of every resolved artist slot. -/
def AddInv (S : List String) (d : DBState) : Prop :=
  songRefsInv d ∧ keysCoherent d ∧ ∀ r ∈ S, (JMap.get d.dbArtists r).isSome = true

/-!  Concrete fixtures shared by the claim-level evaluations: an `Ext`
instance whose minters simply tag the hashed text (injective and
collision-free, like the intended behavior of the hash minters) and
whose song keys prefix the path, plus small metadata records. -/

/-- A concrete external environment for running the embedded database
on closed inputs. -/
def testExt : Ext :=
  ⟨id, fun n => "R" ++ n, fun s => "L" ++ s, fun p => some ("S" ++ p)⟩

/-- An external environment whose minters are the identity (used to
discharge the mint side conditions on an empty database). -/
def idExt : Ext := ⟨id, id, id, fun p => some ("S" ++ p)⟩

/-- Metadata: artist `r`, album `A` (2000), in directory `/dir`. -/
def mdA1 : FullMetadata :=
  { originalPath := "/dir/a1.mp3", artist := .one "r", album := "A",
    year := some 2000, track := 1, title := "t1" }

/-- Metadata: artist `q`, same album `A` (2000), same directory — the
empty artist intersection turns album `A` into a `va` album. -/
def mdA2 : FullMetadata :=
  { originalPath := "/dir/a2.mp3", artist := .one "q", album := "A",
    year := some 2000, track := 2, title := "t2" }

/-- Metadata: artist `r` again, on a second album `B`. -/
def mdB1 : FullMetadata :=
  { originalPath := "/dir2/b1.mp3", artist := .one "r", album := "B",
    year := some 2001, track := 1, title := "t3" }

/-- The state after adding the three songs above to an empty database:
album `A` is `va` with songs by `r` and `q`; artist `r` also has a song
on album `B`. -/
def c2state : Option DBState :=
  (addOrUpdateSong testExt mdA1 emptyDB).bind
    (addOrUpdateSong testExt mdA2) |>.bind (addOrUpdateSong testExt mdB1)

/-- Metadata for C3: a `va`-typed song in directory `/d1`. -/
def mdVa1 : FullMetadata :=
  { originalPath := "/d1/x.mp3", artist := .one "a", album := "T",
    year := some 2000, track := 1, title := "x", vaType := some "va" }

/-- Metadata for C3: a `va`-typed song with the same album title and
year but another artist and another directory. -/
def mdVa2 : FullMetadata :=
  { originalPath := "/d2/y.mp3", artist := .one "b", album := "T",
    year := some 2000, track := 2, title := "y", vaType := some "va" }

/-- Metadata for C4: the same artist name appears both as the primary
artist and among `moreArtists`. -/
def mdDup : FullMetadata :=
  { originalPath := "/p/s.mp3", artist := .one "Bob", album := "Al",
    year := some 1999, track := 3, title := "tt", moreArtists := some ["Bob"] }

/-- Metadata for the amended C4 round trip: primary artist `Bob` plus
a distinct secondary artist `Carl`. -/
def mdC4 : FullMetadata :=
  { originalPath := "/m/song.mp3", artist := .one "Bob", album := "Alb",
    year := some 2001, track := 3, title := "Song",
    moreArtists := some ["Carl"] }

/-- Metadata for C6: track 50 of disk 1. -/
def mdDisk : FullMetadata :=
  { originalPath := "/d/s.mp3", artist := .one "a", album := "Al",
    year := some 2000, track := 50, title := "t", disk := some 1 }

/-- A hash function with a forced 32-bit collision: every fresh probe
(seed 0) hashes to 5, and the chained rehash of `b` from slot 5 gives
9. -/
def collHash : Nat → String → Nat := fun seed name =>
  if seed = 0 then 5 else if seed = 5 && name = "b" then 9 else 77

/-- Minting artist keys for `a`, `b`, and then both again, through the
global tables (fuel 9 is ample for the two-step probe). -/
def c5artistRun : Option (List String × HashTables) :=
  ["a", "b", "a", "b"].foldlM
    (fun acc n => (newArtistKey id collHash toString acc.2 n 9).map
      (fun r => (acc.1 ++ [r.1], r.2)))
    ([], emptyTables)

/-- Minting album keys for two different summaries whose hashes collide
(both hash to 5 under `collHash`). -/
def c5albumRun : Option (List String × HashTables) :=
  (newAlbumKey id collHash toString emptyTables "X" "a" 1 9).bind (fun r1 =>
    (newAlbumKey id collHash toString r1.2 "Y" "b" 2 9).map (fun r2 =>
      ([r1.1, r2.1], r2.2)))

/-- Blob store: payload `[1, 2]` stored under keys `a` and `b`. -/
def c9s1 : BlobStore.State := BlobStore.putMany [1, 2] ["a", "b"] BlobStore.emptyStore

/-- Blob store: key `b` re-bound to a second payload `[3, 4]`. -/
def c9s2 : BlobStore.State := BlobStore.putMany [3, 4] ["b"] c9s1

/-- Blob store: key `a` deleted; no key maps to `BLOB-0` any more, yet
the reverse map still lists `b` for it and the payload file stays. -/
def c9s3 : BlobStore.State := BlobStore.del ["a"] c9s2

/-- The map entry `getOrNewArtist` creates for a fresh artist name. -/
def artistEntry (E : Ext) (n : String) : String × Artist :=
  (E.mintArtistKey (E.normalizeName n),
   ⟨n, [], [], E.mintArtistKey (E.normalizeName n)⟩)

/-- The artist map entry after `addOrUpdateSong` has pushed the new
song key and album key onto a freshly created artist. -/
def artistEntryDone (E : Ext) (skey albKey : String) (n : String) : String × Artist :=
  (E.mintArtistKey (E.normalizeName n),
   ⟨n, [skey], [albKey], E.mintArtistKey (E.normalizeName n)⟩)

/-- Forward/reverse consistency of a blob-store state: the reverse
`pathToKeys` sets are duplicate-free and list exactly the keys whose
forward `keyToPath` mapping points at the payload file.  This holds for
stores built by `putMany` calls as long as no key has been re-bound to
a different payload. -/
def BlobStore.RevCons (s : BlobStore.State) : Prop :=
  (∀ p ∈ s.pathToKeys, List.Nodup p.2) ∧
  (∀ f k, (∃ ks, MMap.get s.pathToKeys f = some ks ∧ k ∈ ks) ↔
    JMap.get s.keyToPath k = some f)

/-- A one-album, one-song state used to instantiate the amended C3
candidate rules: album `L1` ("T", 2000, no vatype, primary artist `Ra`)
with its song in directory `/d1`. -/
def c3wDB : DBState :=
  ⟨[("s0", { path := "/d1/x.mp3", artistIds := ["Ra"], secondaryIds := [],
             albumId := "L1", track := 1, title := "x", key := "s0" })],
   [("L1", { year := 2000, primaryArtists := ["Ra"], title := "T", vatype := "",
             songs := ["s0"], key := "L1" })],
   [], [("T", ["L1"])], []⟩

/-!  Helper lemmas about the `JMap` operations. -/

theorem JMap.get_set_self {K V : Type} [DecidableEq K] (m : JMap K V) (k : K) (v : V) :
    JMap.get (JMap.set m k v) k = some v := by
  induction m with
  | nil => simp [JMap.set, JMap.get]
  | cons p rest ih =>
    rcases p with ⟨k2, v2⟩
    by_cases h : k2 = k
    · simp [JMap.set, JMap.get, h]
    · simp [JMap.set, JMap.get, h, ih]

theorem JMap.get_set_ne {K V : Type} [DecidableEq K] (m : JMap K V) (k k2 : K) (v : V)
    (h : k2 ≠ k) : JMap.get (JMap.set m k v) k2 = JMap.get m k2 := by
  induction m with
  | nil => simp [JMap.set, JMap.get, Ne.symm h]
  | cons p rest ih =>
    rcases p with ⟨k3, v3⟩
    by_cases h3 : k3 = k
    · subst h3
      simp [JMap.set, JMap.get, Ne.symm h]
    · simp [JMap.set, JMap.get, h3, ih]

theorem JMap.get_del_self {K V : Type} [DecidableEq K] (m : JMap K V) (k : K) :
    JMap.get (JMap.del m k) k = none := by
  induction m with
  | nil => simp [JMap.del, JMap.get]
  | cons p rest ih =>
    rcases p with ⟨k2, v2⟩
    by_cases h : k2 = k
    · simpa [JMap.del, h] using ih
    · simpa [JMap.del, h, JMap.get] using ih

theorem JMap.get_del_ne {K V : Type} [DecidableEq K] (m : JMap K V) (k k2 : K)
    (h : k2 ≠ k) : JMap.get (JMap.del m k) k2 = JMap.get m k2 := by
  induction m with
  | nil => simp [JMap.del, JMap.get]
  | cons p rest ih =>
    rcases p with ⟨k3, v3⟩
    by_cases h3 : k3 = k
    · subst h3
      simp [JMap.del, JMap.get, Ne.symm h, ih]
    · simp [JMap.del, JMap.get, h3, ih]

theorem JMap.get_eq_none_iff {K V : Type} [DecidableEq K] (m : JMap K V) (k : K) :
    JMap.get m k = none ↔ k ∉ m.map Prod.fst := by
  induction m with
  | nil => simp [JMap.get]
  | cons p rest ih =>
    rcases p with ⟨k2, v2⟩
    by_cases h : k2 = k
    · subst h
      simp [JMap.get]
    · simp [JMap.get, h, ih, Ne.symm h]

theorem JMap.set_of_get_none {K V : Type} [DecidableEq K] (m : JMap K V) (k : K) (v : V)
    (h : JMap.get m k = none) : JMap.set m k v = m ++ [(k, v)] := by
  induction m with
  | nil => simp [JMap.set]
  | cons p rest ih =>
    rcases p with ⟨k2, v2⟩
    by_cases h2 : k2 = k
    · simp [JMap.get, h2] at h
    · simp only [JMap.get, if_neg h2] at h
      simp [JMap.set, h2, ih h]

theorem JMap.get_append_of_none {K V : Type} [DecidableEq K] (m m2 : JMap K V) (k : K)
    (h : JMap.get m k = none) : JMap.get (m ++ m2) k = JMap.get m2 k := by
  induction m with
  | nil => simp
  | cons p rest ih =>
    rcases p with ⟨k2, v2⟩
    by_cases h2 : k2 = k
    · simp [JMap.get, h2] at h
    · simp only [JMap.get, if_neg h2] at h
      simp only [List.cons_append, JMap.get, if_neg h2]
      exact ih h

theorem JMap.set_append_right {K V : Type} [DecidableEq K] (m m2 : JMap K V) (k : K)
    (v : V) (h : JMap.get m k = none) :
    JMap.set (m ++ m2) k v = m ++ JMap.set m2 k v := by
  induction m with
  | nil => simp
  | cons p rest ih =>
    rcases p with ⟨k2, v2⟩
    by_cases h2 : k2 = k
    · simp [JMap.get, h2] at h
    · simp only [JMap.get, if_neg h2] at h
      simp [JMap.set, h2, ih h]

theorem jsSetOf_go {α : Type} [DecidableEq α] :
    ∀ (l acc : List α), l.Nodup → (∀ x ∈ l, x ∉ acc) →
      l.foldl (fun acc x => if x ∈ acc then acc else acc ++ [x]) acc = acc ++ l := by
  intro l
  induction l with
  | nil => simp
  | cons a rest ih =>
    intro acc hnd hdis
    simp only [List.foldl_cons]
    rw [if_neg (hdis a (by simp))]
    rw [ih (acc ++ [a]) (List.nodup_cons.mp hnd).2 ?_]
    · simp
    · intro x hx
      simp only [List.mem_append, List.mem_singleton]
      rintro (h | h)
      · exact hdis x (by simp [hx]) h
      · subst h
        exact (List.nodup_cons.mp hnd).1 hx

theorem jsSetOf_eq_self {α : Type} [DecidableEq α] (l : List α) (h : l.Nodup) :
    jsSetOf l = l := by
  simpa [jsSetOf] using jsSetOf_go l [] h (by simp)

theorem JMap.del_of_not_mem {K V : Type} [DecidableEq K] (m : JMap K V) (k : K)
    (h : k ∉ m.map Prod.fst) : JMap.del m k = m := by
  induction m with
  | nil => simp [JMap.del]
  | cons p rest ih =>
    rcases p with ⟨k2, v2⟩
    simp only [List.map_cons, List.mem_cons, not_or] at h
    have h2 : k2 ≠ k := Ne.symm h.1
    simp [JMap.del, h2, ih h.2]

theorem JMap.set_set_self {K V : Type} [DecidableEq K] (m : JMap K V) (k : K) (v1 v2 : V) :
    JMap.set (JMap.set m k v1) k v2 = JMap.set m k v2 := by
  induction m with
  | nil => simp [JMap.set]
  | cons p rest ih =>
    rcases p with ⟨k2, v3⟩
    by_cases h : k2 = k
    · simp [JMap.set, h]
    · simp [JMap.set, h, ih]

theorem JMap.del_set_self {K V : Type} [DecidableEq K] (m : JMap K V) (k : K) (v : V) :
    JMap.del (JMap.set m k v) k = JMap.del m k := by
  induction m with
  | nil => simp [JMap.set, JMap.del]
  | cons p rest ih =>
    rcases p with ⟨k2, v2⟩
    by_cases h : k2 = k
    · simp [JMap.set, JMap.del, h]
    · simp [JMap.set, JMap.del, h, ih]

theorem JMap.del_nil {K V : Type} [DecidableEq K] (k : K) :
    JMap.del ([] : JMap K V) k = [] := rfl

theorem MMap.get_set_nil {K V : Type} [DecidableEq K] [DecidableEq V] (k : K) (v : V) :
    MMap.get (MMap.set ([] : MMap K V) k v) k = some [v] := by
  simp [MMap.set, MMap.get, JMap.get, JMap.set]

theorem MMap.remove_set_nil {K V : Type} [DecidableEq K] [DecidableEq V] (k : K) (v : V) :
    MMap.remove (MMap.set ([] : MMap K V) k v) k v = [] := by
  simp [MMap.set, MMap.remove, MMap.get, JMap.get, JMap.set, JMap.del, List.erase_cons_head]

/-- Resolving a list of artist names whose normalized forms are fresh
(absent from the name index, with fresh minted keys) appends one new
artist per name to the maps, in order. -/
theorem resolveArtists_from_fresh (E : Ext)
    (hInj : ∀ n1 n2, E.mintArtistKey n1 = E.mintArtistKey n2 → n1 = n2) :
    ∀ (names : List String) (acc : List (String × Artist)) (db : DBState),
      (∀ n ∈ names, JMap.get db.artistNameIndex (E.normalizeName n) = none) →
      (∀ n ∈ names, JMap.get db.dbArtists (E.mintArtistKey (E.normalizeName n)) = none) →
      (names.map (fun n => E.normalizeName n)).Nodup →
      resolveArtists E names acc db =
        (acc ++ names.map (artistEntry E),
         { db with
           dbArtists := db.dbArtists ++ names.map (artistEntry E),
           artistNameIndex := db.artistNameIndex ++
             names.map (fun n => (E.normalizeName n, E.mintArtistKey (E.normalizeName n))) }) := by
  intro names
  induction names with
  | nil =>
    intro acc db _ _ _
    simp [resolveArtists]
  | cons n rest ih =>
    intro acc db hidx hart hnd
    have hidxn := hidx n (by simp)
    have hartn := hart n (by simp)
    have hnrm : ∀ n2 ∈ rest, E.normalizeName n2 ≠ E.normalizeName n := by
      intro n2 hn2 hcon
      simp only [List.map_cons, List.nodup_cons] at hnd
      exact hnd.1 (hcon ▸ List.mem_map_of_mem _ hn2)
    have hget : getOrNewArtist E db n =
        (E.mintArtistKey (E.normalizeName n),
         ⟨n, [], [], E.mintArtistKey (E.normalizeName n)⟩,
         { db with
           artistNameIndex := (JMap.set db.artistNameIndex (E.normalizeName n)
             (E.mintArtistKey (E.normalizeName n))),
           dbArtists := (JMap.set db.dbArtists (E.mintArtistKey (E.normalizeName n))
             ⟨n, [], [], E.mintArtistKey (E.normalizeName n)⟩) }) := by
      unfold getOrNewArtist
      rw [hidxn]
    simp only [resolveArtists, hget]
    refine (ih _ _ ?_ ?_ ?_).trans ?_
    · intro n2 hn2
      rw [JMap.get_set_ne _ _ _ _ (hnrm n2 hn2)]
      exact hidx n2 (List.mem_cons_of_mem _ hn2)
    · intro n2 hn2
      rw [JMap.get_set_ne _ _ _ _ (fun hcon => hnrm n2 hn2 (hInj _ _ hcon))]
      exact hart n2 (List.mem_cons_of_mem _ hn2)
    · exact (List.nodup_cons.mp hnd).2
    · rw [JMap.set_of_get_none _ _ _ hidxn, JMap.set_of_get_none _ _ _ hartn]
      simp [artistEntry, List.append_assoc]

/-- Folding `addSongToArtistStep` over the slots of freshly created
artists turns each `artistEntry` into the corresponding
`artistEntryDone` (song key and album key pushed), in place. -/
theorem addSongToArtist_fold (E : Ext) (skey albKey : String)
    (hInj : ∀ n1 n2, E.mintArtistKey n1 = E.mintArtistKey n2 → n1 = n2) :
    ∀ (names : List String) (done : JMap String Artist) (db : DBState),
      db.dbArtists = done ++ names.map (artistEntry E) →
      (∀ n ∈ names, JMap.get done (E.mintArtistKey (E.normalizeName n)) = none) →
      (names.map (fun n => E.normalizeName n)).Nodup →
      List.foldl (addSongToArtistStep skey albKey) db
          (names.map (fun n => E.mintArtistKey (E.normalizeName n))) =
        { db with dbArtists := done ++ names.map (artistEntryDone E skey albKey) } := by
  intro names
  induction names with
  | nil =>
    intro done db hdb _ _
    cases db
    simp_all
  | cons n rest ih =>
    intro done db hdb hdone hnd
    have hnrm : ∀ n2 ∈ rest, E.normalizeName n2 ≠ E.normalizeName n := by
      intro n2 hn2 hcon
      simp only [List.map_cons, List.nodup_cons] at hnd
      exact hnd.1 (hcon ▸ List.mem_map_of_mem _ hn2)
    have hget : JMap.get db.dbArtists (E.mintArtistKey (E.normalizeName n)) =
        some ⟨n, [], [], E.mintArtistKey (E.normalizeName n)⟩ := by
      rw [hdb, JMap.get_append_of_none _ _ _ (hdone n (by simp))]
      simp [artistEntry, JMap.get]
    have hstep : addSongToArtistStep skey albKey db
        (E.mintArtistKey (E.normalizeName n)) =
        { db with dbArtists := (done ++
            (artistEntryDone E skey albKey n :: rest.map (artistEntry E))) } := by
      unfold addSongToArtistStep
      rw [hget]
      simp only []
      congr 1
      rw [hdb, JMap.set_append_right _ _ _ _ (hdone n (by simp))]
      congr 1
      simp [artistEntry, artistEntryDone, JMap.set]
    simp only [List.map_cons, List.foldl_cons, hstep]
    refine (ih (done ++ [artistEntryDone E skey albKey n]) _ ?_ ?_ ?_).trans ?_
    · simp [List.append_assoc]
    · intro n2 hn2
      rw [JMap.get_append_of_none _ _ _ (hdone n2 (List.mem_cons_of_mem _ hn2))]
      simp only [artistEntryDone, JMap.get]
      rw [if_neg (fun hcon => hnrm n2 hn2 (hInj _ _ hcon).symm)]
    · exact (List.nodup_cons.mp hnd).2
    · simp [List.append_assoc]

/-- When no album with the incoming normalized title exists,
`getOrNewAlbum` creates a fresh album and registers it in the title
index. -/
theorem getOrNewAlbum_no_candidates (E : Ext) (title : String) (year : Nat)
    (artists secondaryArtists : List String) (vatype dirName : String)
    (dn : Option Nat) (dnm : Option String) (db : DBState)
    (h : MMap.get db.albumTitleIndex (E.normalizeName title) = none) :
    getOrNewAlbum E title year artists secondaryArtists vatype dirName dn dnm db =
      ⟨E.mintAlbumKey (albumKeySummary E title
          (if vatype = "" then String.intercalate "/" artists else vatype) year),
       EnsureDiskNums
         { year := year, primaryArtists := if vatype = "" then artists else [],
           title := title, vatype := vatype, songs := [],
           key := E.mintAlbumKey (albumKeySummary E title
             (if vatype = "" then String.intercalate "/" artists else vatype) year) }
         dn dnm,
       artists, secondaryArtists,
       { db with
         albumTitleIndex := (MMap.set db.albumTitleIndex (E.normalizeName title)
           (E.mintAlbumKey (albumKeySummary E title
             (if vatype = "" then String.intercalate "/" artists else vatype) year))),
         dbAlbums := (JMap.set db.dbAlbums
           (E.mintAlbumKey (albumKeySummary E title
             (if vatype = "" then String.intercalate "/" artists else vatype) year))
           (EnsureDiskNums
             { year := year, primaryArtists := if vatype = "" then artists else [],
               title := title, vatype := vatype, songs := [],
               key := E.mintAlbumKey (albumKeySummary E title
                 (if vatype = "" then String.intercalate "/" artists else vatype) year) }
             dn dnm)) }⟩ := by
  unfold getOrNewAlbum
  rw [h]
  rfl

/-- Folding `delArtistStep` for the deleted song's key over artists
that each hold exactly that one song removes every artist and its
name-index entry. -/
theorem delArtists_fold (E : Ext) (skey albKey : String)
    (hInj : ∀ n1 n2, E.mintArtistKey n1 = E.mintArtistKey n2 → n1 = n2) :
    ∀ (names : List String) (db : DBState),
      db.dbArtists = names.map (artistEntryDone E skey albKey) →
      db.artistNameIndex =
        names.map (fun n => (E.normalizeName n, E.mintArtistKey (E.normalizeName n))) →
      (names.map (fun n => E.normalizeName n)).Nodup →
      List.foldl (delArtistStep E skey) db
          (names.map (fun n => E.mintArtistKey (E.normalizeName n))) =
        { db with dbArtists := [], artistNameIndex := [] } := by
  intro names
  induction names with
  | nil =>
    intro db hdb hidx _
    cases db
    simp_all
  | cons n rest ih =>
    intro db hdb hidx hnd
    have hnrm : ∀ n2 ∈ rest, E.normalizeName n2 ≠ E.normalizeName n := by
      intro n2 hn2 hcon
      simp only [List.map_cons, List.nodup_cons] at hnd
      exact hnd.1 (hcon ▸ List.mem_map_of_mem _ hn2)
    have hget : JMap.get db.dbArtists (E.mintArtistKey (E.normalizeName n)) =
        some ⟨n, [skey], [albKey], E.mintArtistKey (E.normalizeName n)⟩ := by
      rw [hdb]
      simp [artistEntryDone, JMap.get]
    have hart2 : JMap.del (JMap.set db.dbArtists (E.mintArtistKey (E.normalizeName n))
        ⟨n, [], [albKey], E.mintArtistKey (E.normalizeName n)⟩)
        (E.mintArtistKey (E.normalizeName n)) =
        rest.map (artistEntryDone E skey albKey) := by
      rw [hdb]
      simp only [List.map_cons, artistEntryDone, JMap.set, if_pos rfl, JMap.del,
        if_pos rfl]
      apply JMap.del_of_not_mem
      simp only [List.map_map, List.mem_map, not_exists, Function.comp]
      intro n2
      rintro ⟨hn2, hcon⟩
      exact hnrm n2 hn2 (hInj _ _ (by simpa [artistEntryDone] using hcon))
    have hidx2 : JMap.del db.artistNameIndex (E.normalizeName n) =
        rest.map (fun n2 => (E.normalizeName n2, E.mintArtistKey (E.normalizeName n2))) := by
      rw [hidx]
      simp only [List.map_cons, JMap.del, if_pos rfl]
      apply JMap.del_of_not_mem
      simp only [List.map_map, List.mem_map, not_exists, Function.comp]
      intro n2
      rintro ⟨hn2, hcon⟩
      exact hnrm n2 hn2 (by simpa using hcon)
    have hstep : delArtistStep E skey db (E.mintArtistKey (E.normalizeName n)) =
        ⟨db.dbSongs, db.dbAlbums, rest.map (artistEntryDone E skey albKey),
         db.albumTitleIndex,
         rest.map (fun n2 => (E.normalizeName n2, E.mintArtistKey (E.normalizeName n2)))⟩ := by
      unfold delArtistStep
      rw [hget]
      dsimp only
      rw [if_pos (show (([skey] : List String).contains skey) = true by simp)]
      simp only [List.erase_cons_head, if_true]
      rw [hart2, hidx2]
    simp only [List.map_cons, List.foldl_cons, hstep]
    exact ih _ rfl rfl (List.nodup_cons.mp hnd).2

theorem JMap.get_mem {K V : Type} [DecidableEq K] (m : JMap K V) (k : K) (v : V)
    (h : JMap.get m k = some v) : (k, v) ∈ m := by
  induction m with
  | nil => simp [JMap.get] at h
  | cons p rest ih =>
    rcases p with ⟨k2, v2⟩
    by_cases h2 : k2 = k
    · subst h2
      simp only [JMap.get, if_pos rfl] at h
      cases h
      exact List.mem_cons_self _ _
    · simp only [JMap.get, if_neg h2] at h
      exact List.mem_cons_of_mem _ (ih h)

theorem EnsureDiskNums_year (album : Album) (dn : Option Nat) (dnm : Option String) :
    (EnsureDiskNums album dn dnm).year = album.year := by
  cases dn <;> simp [EnsureDiskNums]

theorem EnsureDiskNums_primaryArtists (album : Album) (dn : Option Nat)
    (dnm : Option String) :
    (EnsureDiskNums album dn dnm).primaryArtists = album.primaryArtists := by
  cases dn <;> simp [EnsureDiskNums]

theorem EnsureDiskNums_title (album : Album) (dn : Option Nat) (dnm : Option String) :
    (EnsureDiskNums album dn dnm).title = album.title := by
  cases dn <;> simp [EnsureDiskNums]

theorem EnsureDiskNums_vatype (album : Album) (dn : Option Nat) (dnm : Option String) :
    (EnsureDiskNums album dn dnm).vatype = album.vatype := by
  cases dn <;> simp [EnsureDiskNums]

theorem EnsureDiskNums_songs (album : Album) (dn : Option Nat) (dnm : Option String) :
    (EnsureDiskNums album dn dnm).songs = album.songs := by
  cases dn <;> simp [EnsureDiskNums]

theorem EnsureDiskNums_key (album : Album) (dn : Option Nat) (dnm : Option String) :
    (EnsureDiskNums album dn dnm).key = album.key := by
  cases dn <;> simp [EnsureDiskNums]

/-- `EnsureDiskNums` touches only the `diskNames` field. -/
theorem EnsureDiskNums_fields (album : Album) (dn : Option Nat) (dnm : Option String) :
    (EnsureDiskNums album dn dnm).year = album.year ∧
    (EnsureDiskNums album dn dnm).primaryArtists = album.primaryArtists ∧
    (EnsureDiskNums album dn dnm).title = album.title ∧
    (EnsureDiskNums album dn dnm).vatype = album.vatype ∧
    (EnsureDiskNums album dn dnm).songs = album.songs ∧
    (EnsureDiskNums album dn dnm).key = album.key := by
  cases dn <;> simp [EnsureDiskNums]

/-!  Claim theorems. -/


theorem JMap.get_del_cases {K V : Type} [DecidableEq K] (m : JMap K V) (k k2 : K) (v : V)
    (h : JMap.get (JMap.del m k) k2 = some v) : k2 ≠ k ∧ JMap.get m k2 = some v := by
  by_cases hk : k2 = k
  · subst hk
    rw [JMap.get_del_self] at h
    cases h
  · rw [JMap.get_del_ne _ _ _ hk] at h
    exact ⟨hk, h⟩

theorem JMap.get_set_cases {K V : Type} [DecidableEq K] (m : JMap K V) (k k2 : K) (v v2 : V)
    (h : JMap.get (JMap.set m k v) k2 = some v2) :
    (k2 = k ∧ v2 = v) ∨ (k2 ≠ k ∧ JMap.get m k2 = some v2) := by
  by_cases hk : k2 = k
  · subst hk
    rw [JMap.get_set_self] at h
    exact Or.inl ⟨rfl, (Option.some_inj.mp h).symm⟩
  · rw [JMap.get_set_ne _ _ _ _ hk] at h
    exact Or.inr ⟨hk, h⟩

theorem JMap.isSome_get_set {K V : Type} [DecidableEq K] (m : JMap K V) (k r : K) (v : V)
    (h : (JMap.get m r).isSome = true) : (JMap.get (JMap.set m k v) r).isSome = true := by
  by_cases hr : r = k
  · subst hr
    rw [JMap.get_set_self]
    rfl
  · rw [JMap.get_set_ne _ _ _ _ hr]
    exact h

theorem survivor_key_ne (d : DBState) (k k2 : String) (s : Song)
    (hcs : ∀ k3 s2, JMap.get d.dbSongs k3 = some s2 → s2.key = k3)
    (hk : JMap.get d.dbSongs k = none) (hs : JMap.get d.dbSongs k2 = some s) :
    s.key ≠ k := by
  intro hkeq
  have h2 := hcs _ _ hs
  rw [h2] at hkeq
  subst hkeq
  rw [hk] at hs
  cases hs

theorem pruneStep_delInv (k artistKey fieldKey : String) (d : DBState) (albKey : String)
    (h : DelInv k d) : DelInv k (pruneArtistFromAlbumStep artistKey fieldKey d albKey) := by
  obtain ⟨href, ⟨hcs, hca, hcr⟩, hk⟩ := h
  unfold pruneArtistFromAlbumStep
  cases halb : JMap.get d.dbAlbums albKey with
  | none => exact ⟨href, ⟨hcs, hca, hcr⟩, hk⟩
  | some album =>
    dsimp only
    split_ifs with h1 h2
    · refine ⟨?_, ⟨hcs, ?_, hcr⟩, hk⟩
      · intro k2 s hs
        obtain ⟨⟨a, ha, hmem⟩, hart⟩ := href k2 s hs
        refine ⟨?_, hart⟩
        by_cases he : s.albumId = albKey
        · rw [he] at ha
          rw [halb] at ha
          obtain rfl : album = a := Option.some_inj.mp ha
          refine ⟨{ album with primaryArtists := album.primaryArtists.erase fieldKey },
            ?_, hmem⟩
          rw [he]
          exact JMap.get_set_self _ _ _
        · exact ⟨a, by rw [JMap.get_set_ne _ _ _ _ he]; exact ha, hmem⟩
      · intro k2 a ha
        rcases JMap.get_set_cases _ _ _ _ _ ha with ⟨rfl, rfl⟩ | ⟨hne, ha2⟩
        · exact (hca _ _ halb : album.key = _)
        · exact hca _ _ ha2
    · exact ⟨href, ⟨hcs, hca, hcr⟩, hk⟩
    · exact ⟨href, ⟨hcs, hca, hcr⟩, hk⟩

theorem pruneFold_delInv (k artistKey fieldKey : String) :
    ∀ (L : List String) (d : DBState), DelInv k d →
      DelInv k (L.foldl (pruneArtistFromAlbumStep artistKey fieldKey) d) := by
  intro L
  induction L with
  | nil => intro d h; exact h
  | cons a rest ih =>
    intro d h
    exact ih _ (pruneStep_delInv k artistKey fieldKey d a h)

theorem delArtistStep_delInv (E : Ext) (k : String) (d : DBState) (artistKey : String)
    (h : DelInv k d) : DelInv k (delArtistStep E k d artistKey) := by
  obtain ⟨href, ⟨hcs, hca, hcr⟩, hk⟩ := h
  unfold delArtistStep
  cases hart : JMap.get d.dbArtists artistKey with
  | none => exact ⟨href, ⟨hcs, hca, hcr⟩, hk⟩
  | some theArtist =>
    dsimp only
    by_cases hc : theArtist.songs.contains k = true
    · rw [if_pos hc]
      have hkey : theArtist.key = artistKey := hcr _ _ hart
      by_cases hz : theArtist.songs.erase k = []
      · rw [if_pos hz]
        refine ⟨?_, ⟨hcs, hca, ?_⟩, hk⟩
        · intro k2 s hs
          obtain ⟨halb, hartref⟩ := href k2 s hs
          refine ⟨halb, ?_⟩
          intro r hr
          obtain ⟨art, hget, hmem⟩ := hartref r hr
          have hrne : r ≠ artistKey := by
            rintro rfl
            rw [hart] at hget
            obtain rfl : theArtist = art := Option.some_inj.mp hget
            have hkne : s.key ≠ k := survivor_key_ne d k k2 s hcs hk hs
            have hin : s.key ∈ theArtist.songs.erase k :=
              (List.mem_erase_of_ne hkne).mpr hmem
            rw [hz] at hin
            cases hin
          refine ⟨art, ?_, hmem⟩
          rw [hkey, JMap.get_del_ne _ _ _ hrne, JMap.get_set_ne _ _ _ _ hrne]
          exact hget
        · intro k2 a ha
          obtain ⟨hne, ha2⟩ := JMap.get_del_cases _ _ _ _ ha
          rcases JMap.get_set_cases _ _ _ _ _ ha2 with ⟨rfl, rfl⟩ | ⟨hne2, ha3⟩
          · exact absurd hkey.symm hne
          · exact hcr _ _ ha3
      · rw [if_neg hz]
        refine pruneFold_delInv _ _ _ _ _ ?_
        refine ⟨?_, ⟨hcs, hca, ?_⟩, hk⟩
        · intro k2 s hs
          obtain ⟨halb, hartref⟩ := href k2 s hs
          refine ⟨halb, ?_⟩
          intro r hr
          obtain ⟨art, hget, hmem⟩ := hartref r hr
          by_cases hre : r = artistKey
          · rw [hre] at hget
            rw [hart] at hget
            obtain rfl : theArtist = art := Option.some_inj.mp hget
            have hkne : s.key ≠ k := survivor_key_ne d k k2 s hcs hk hs
            refine ⟨{ theArtist with songs := theArtist.songs.erase k }, ?_,
              (List.mem_erase_of_ne hkne).mpr hmem⟩
            rw [hre]
            exact JMap.get_set_self _ _ _
          · exact ⟨art, by rw [JMap.get_set_ne _ _ _ _ hre]; exact hget, hmem⟩
        · intro k2 a ha
          rcases JMap.get_set_cases _ _ _ _ _ ha with ⟨rfl, rfl⟩ | ⟨hne2, ha3⟩
          · exact (hcr _ _ hart : theArtist.key = _)
          · exact hcr _ _ ha3
    · rw [if_neg hc]
      exact ⟨href, ⟨hcs, hca, hcr⟩, hk⟩

theorem delArtistsFold_delInv (E : Ext) (k : String) :
    ∀ (L : List String) (d : DBState), DelInv k d →
      DelInv k (L.foldl (delArtistStep E k) d) := by
  intro L
  induction L with
  | nil => intro d h; exact h
  | cons a rest ih =>
    intro d h
    exact ih _ (delArtistStep_delInv E k d a h)

theorem delSongByKey_songRefs (E : Ext) (k : String) (db : DBState)
    (hgood : GoodDB db) : songRefsInv (delSongByKey E k db).2 := by
  obtain ⟨href, ⟨hcs, hca, hcr⟩, hidx⟩ := hgood
  unfold delSongByKey
  cases hsk : JMap.get db.dbSongs k with
  | none => exact href
  | some theSong =>
    dsimp only
    have hd1 : DelInv k { db with dbSongs := JMap.del db.dbSongs k } := by
      refine ⟨?_, ⟨?_, hca, hcr⟩, JMap.get_del_self _ _⟩
      · intro k2 s hs
        obtain ⟨hne, hs2⟩ := JMap.get_del_cases _ _ _ _ hs
        exact href _ _ hs2
      · intro k2 s hs
        obtain ⟨hne, hs2⟩ := JMap.get_del_cases _ _ _ _ hs
        exact hcs _ _ hs2
    refine (delArtistsFold_delInv E k _ _ ?_).1
    cases halb : JMap.get db.dbAlbums theSong.albumId with
    | none => exact hd1
    | some theAlbum =>
      dsimp only
      by_cases hc : theAlbum.songs.contains k = true
      · rw [if_pos hc]
        have halbkey : theAlbum.key = theSong.albumId := hca _ _ halb
        by_cases hz : theAlbum.songs.erase k = []
        · rw [if_pos hz]
          have hcommon : ∀ ti : MMap String String, DelInv k ⟨JMap.del db.dbSongs k,
              JMap.del (JMap.set db.dbAlbums theSong.albumId
                { theAlbum with songs := theAlbum.songs.erase k }) theAlbum.key,
              db.dbArtists, ti, db.artistNameIndex⟩ := by
            intro ti
            refine ⟨?_, ⟨?_, ?_, hcr⟩, JMap.get_del_self _ _⟩
            · intro k2 s hs
              obtain ⟨hne, hs2⟩ := JMap.get_del_cases _ _ _ _ hs
              obtain ⟨⟨a, ha, hmem⟩, hart⟩ := href _ _ hs2
              refine ⟨?_, hart⟩
              by_cases he : s.albumId = theSong.albumId
              · rw [he] at ha
                rw [halb] at ha
                obtain rfl : theAlbum = a := Option.some_inj.mp ha
                have hkne : s.key ≠ k := by
                  have h2 := hcs _ _ hs2
                  rw [h2]
                  exact hne
                have hin : s.key ∈ theAlbum.songs.erase k :=
                  (List.mem_erase_of_ne hkne).mpr hmem
                rw [hz] at hin
                cases hin
              · refine ⟨a, ?_, hmem⟩
                have hne2 : s.albumId ≠ theAlbum.key := by
                  rw [halbkey]
                  exact he
                rw [JMap.get_del_ne _ _ _ hne2, JMap.get_set_ne _ _ _ _ he]
                exact ha
            · intro k2 s hs
              exact hcs _ _ (JMap.get_del_cases _ _ _ _ hs).2
            · intro k2 a ha
              obtain ⟨hne, ha2⟩ := JMap.get_del_cases _ _ _ _ ha
              rcases JMap.get_set_cases _ _ _ _ _ ha2 with ⟨rfl, rfl⟩ | ⟨hne2, ha3⟩
              · exact absurd halbkey.symm hne
              · exact hca _ _ ha3
          cases MMap.get db.albumTitleIndex (E.normalizeName theAlbum.title) with
          | none => exact hcommon _
          | some v => exact hcommon _
        · rw [if_neg hz]
          refine ⟨?_, ⟨?_, ?_, hcr⟩, JMap.get_del_self _ _⟩
          · intro k2 s hs
            obtain ⟨hne, hs2⟩ := JMap.get_del_cases _ _ _ _ hs
            obtain ⟨⟨a, ha, hmem⟩, hart⟩ := href _ _ hs2
            refine ⟨?_, hart⟩
            by_cases he : s.albumId = theSong.albumId
            · rw [he] at ha
              rw [halb] at ha
              obtain rfl : theAlbum = a := Option.some_inj.mp ha
              have hkne : s.key ≠ k := by
                have h2 := hcs _ _ hs2
                rw [h2]
                exact hne
              refine ⟨{ theAlbum with songs := theAlbum.songs.erase k }, ?_,
                (List.mem_erase_of_ne hkne).mpr hmem⟩
              rw [he]
              exact JMap.get_set_self _ _ _
            · exact ⟨a, by rw [JMap.get_set_ne _ _ _ _ he]; exact ha, hmem⟩
          · intro k2 s hs
            exact hcs _ _ (JMap.get_del_cases _ _ _ _ hs).2
          · intro k2 a ha
            rcases JMap.get_set_cases _ _ _ _ _ ha with ⟨rfl, rfl⟩ | ⟨hne2, ha3⟩
            · exact (hca _ _ halb : theAlbum.key = _)
            · exact hca _ _ ha3
      · rw [if_neg hc]
        exact hd1

theorem getOrNewArtist_spec (E : Ext) (db : DBState) (n : String)
    (hgood : GoodDB db) (hmf : MintFresh E db) :
    GoodDB (getOrNewArtist E db n).2.2 ∧ MintFresh E (getOrNewArtist E db n).2.2 ∧
    ((JMap.get (getOrNewArtist E db n).2.2.dbArtists (getOrNewArtist E db n).1).isSome
      = true) ∧
    (getOrNewArtist E db n).2.1.key = (getOrNewArtist E db n).1 ∧
    (getOrNewArtist E db n).2.2.dbSongs = db.dbSongs ∧
    (getOrNewArtist E db n).2.2.dbAlbums = db.dbAlbums ∧
    (getOrNewArtist E db n).2.2.albumTitleIndex = db.albumTitleIndex ∧
    (∀ k a, JMap.get db.dbArtists k = some a →
      JMap.get (getOrNewArtist E db n).2.2.dbArtists k = some a) := by
  obtain ⟨href, ⟨hcs, hca, hcr⟩, hidx⟩ := hgood
  obtain ⟨hinj, hfresh, halbf⟩ := hmf
  unfold getOrNewArtist
  cases hidxg : JMap.get db.artistNameIndex (E.normalizeName n) with
  | some maybeKey =>
    obtain ⟨r, hr⟩ := hidx _ _ hidxg
    dsimp only
    rw [hr]
    dsimp only
    refine ⟨⟨href, ⟨hcs, hca, hcr⟩, hidx⟩, ⟨hinj, hfresh, halbf⟩, ?_, hcr _ _ hr,
      rfl, rfl, rfl, fun k a ha => ha⟩
    rw [hr]
    rfl
  | none =>
    dsimp only
    have hfr : JMap.get db.dbArtists (E.mintArtistKey (E.normalizeName n)) = none :=
      hfresh _ hidxg
    refine ⟨⟨?_, ⟨hcs, hca, ?_⟩, ?_⟩, ⟨hinj, ?_, halbf⟩, ?_, rfl, rfl, rfl, rfl, ?_⟩
    · intro k2 s hs
      obtain ⟨halb2, hart⟩ := href k2 s hs
      refine ⟨halb2, ?_⟩
      intro r2 hr2
      obtain ⟨art, hget, hmem⟩ := hart r2 hr2
      have hne : r2 ≠ E.mintArtistKey (E.normalizeName n) := by
        rintro rfl
        rw [hfr] at hget
        cases hget
      exact ⟨art, by rw [JMap.get_set_ne _ _ _ _ hne]; exact hget, hmem⟩
    · intro k2 a ha
      rcases JMap.get_set_cases _ _ _ _ _ ha with ⟨rfl, rfl⟩ | ⟨hne, ha2⟩
      · rfl
      · exact hcr _ _ ha2
    · intro n2 k2 hn2
      rcases JMap.get_set_cases _ _ _ _ _ hn2 with ⟨rfl, rfl⟩ | ⟨hne, hn3⟩
      · exact ⟨_, JMap.get_set_self _ _ _⟩
      · obtain ⟨r2, hr2⟩ := hidx _ _ hn3
        by_cases hk2 : k2 = E.mintArtistKey (E.normalizeName n)
        · subst hk2
          exact ⟨_, JMap.get_set_self _ _ _⟩
        · exact ⟨r2, by rw [JMap.get_set_ne _ _ _ _ hk2]; exact hr2⟩
    · intro n2 hn2
      have hne : n2 ≠ E.normalizeName n := by
        rintro rfl
        rw [JMap.get_set_self] at hn2
        cases hn2
      rw [JMap.get_set_ne _ _ _ _ hne] at hn2
      have hnk : E.mintArtistKey n2 ≠ E.mintArtistKey (E.normalizeName n) :=
        fun hcon => hne (hinj _ _ hcon)
      rw [JMap.get_set_ne _ _ _ _ hnk]
      exact hfresh _ hn2
    · rw [JMap.get_set_self]
      rfl
    · intro k a ha
      have hne : k ≠ E.mintArtistKey (E.normalizeName n) := by
        rintro rfl
        rw [hfr] at ha
        cases ha
      rw [JMap.get_set_ne _ _ _ _ hne]
      exact ha

theorem resolveArtists_spec (E : Ext) :
    ∀ (names : List String) (acc : List (String × Artist)) (db : DBState),
      GoodDB db → MintFresh E db →
      (∀ p ∈ acc, (JMap.get db.dbArtists p.1).isSome = true ∧ p.2.key = p.1) →
      GoodDB (resolveArtists E names acc db).2 ∧
      MintFresh E (resolveArtists E names acc db).2 ∧
      (∀ p ∈ (resolveArtists E names acc db).1,
        (JMap.get (resolveArtists E names acc db).2.dbArtists p.1).isSome = true ∧
        p.2.key = p.1) ∧
      (resolveArtists E names acc db).2.dbSongs = db.dbSongs ∧
      (resolveArtists E names acc db).2.dbAlbums = db.dbAlbums ∧
      (resolveArtists E names acc db).2.albumTitleIndex = db.albumTitleIndex ∧
      (∀ k a, JMap.get db.dbArtists k = some a →
        JMap.get (resolveArtists E names acc db).2.dbArtists k = some a) := by
  intro names
  induction names with
  | nil =>
    intro acc db hgood hmf hacc
    exact ⟨hgood, hmf, hacc, rfl, rfl, rfl, fun k a ha => ha⟩
  | cons n rest ih =>
    intro acc db hgood hmf hacc
    obtain ⟨hg2, hm2, hsome, hkeq, hsongs, halbs, htitle, hmono⟩ :=
      getOrNewArtist_spec E db n hgood hmf
    have hstep : resolveArtists E (n :: rest) acc db =
        resolveArtists E rest
          (acc ++ [((getOrNewArtist E db n).1, (getOrNewArtist E db n).2.1)])
          (getOrNewArtist E db n).2.2 := rfl
    rw [hstep]
    have hacc2 : ∀ p ∈ acc ++ [((getOrNewArtist E db n).1, (getOrNewArtist E db n).2.1)],
        (JMap.get (getOrNewArtist E db n).2.2.dbArtists p.1).isSome = true ∧
        p.2.key = p.1 := by
      intro p hp
      rcases List.mem_append.mp hp with hp | hp
      · obtain ⟨h1, h2⟩ := hacc p hp
        refine ⟨?_, h2⟩
        obtain ⟨a, ha⟩ := Option.isSome_iff_exists.mp h1
        rw [hmono _ _ ha]
        rfl
      · rcases List.mem_singleton.mp hp with rfl
        exact ⟨hsome, hkeq⟩
    obtain ⟨hg3, hm3, hpairs, hs3, ha3, ht3, hmono3⟩ :=
      ih (acc ++ [((getOrNewArtist E db n).1, (getOrNewArtist E db n).2.1)])
        (getOrNewArtist E db n).2.2 hg2 hm2 hacc2
    exact ⟨hg3, hm3, hpairs, hs3.trans hsongs, ha3.trans halbs, ht3.trans htitle,
      fun k a ha => hmono3 _ _ (hmono _ _ ha)⟩

theorem demoteArtists_subset (common primary second : List String) (r : String)
    (h : r ∈ (demoteArtists common primary second).1 ++
      (demoteArtists common primary second).2) :
    r ∈ primary ++ second := by
  simp only [demoteArtists, List.mem_append, List.mem_reverse, List.mem_filter] at h ⊢
  rcases h with h | h | h
  · exact Or.inl h.1
  · exact Or.inr h
  · exact Or.inl h.1

theorem ensureStep_addInv (S : List String) (checkKey : String) (d : DBState) (art : String)
    (h : AddInv S d) :
    AddInv S (ensureArtistAlbumStep checkKey d art) ∧
    (ensureArtistAlbumStep checkKey d art).dbSongs = d.dbSongs ∧
    (ensureArtistAlbumStep checkKey d art).dbAlbums = d.dbAlbums ∧
    (ensureArtistAlbumStep checkKey d art).albumTitleIndex = d.albumTitleIndex := by
  obtain ⟨href, ⟨hcs, hca, hcr⟩, hpres⟩ := h
  unfold ensureArtistAlbumStep
  cases hget : JMap.get d.dbArtists art with
  | none => exact ⟨⟨href, ⟨hcs, hca, hcr⟩, hpres⟩, rfl, rfl, rfl⟩
  | some thisArtist =>
    dsimp only
    by_cases hmem : checkKey ∈ thisArtist.albums
    · rw [if_pos hmem]
      exact ⟨⟨href, ⟨hcs, hca, hcr⟩, hpres⟩, rfl, rfl, rfl⟩
    · rw [if_neg hmem]
      refine ⟨⟨?_, ⟨hcs, hca, ?_⟩, ?_⟩, rfl, rfl, rfl⟩
      · intro k2 s hs
        obtain ⟨halb, hart⟩ := href k2 s hs
        refine ⟨halb, ?_⟩
        intro r hr
        obtain ⟨a2, hg2, hm2⟩ := hart r hr
        by_cases hre : r = art
        · rw [hre] at hg2
          rw [hget] at hg2
          obtain rfl : thisArtist = a2 := Option.some_inj.mp hg2
          refine ⟨{ thisArtist with albums := thisArtist.albums ++ [checkKey] }, ?_, hm2⟩
          rw [hre]
          exact JMap.get_set_self _ _ _
        · exact ⟨a2, by rw [JMap.get_set_ne _ _ _ _ hre]; exact hg2, hm2⟩
      · intro k2 a ha
        rcases JMap.get_set_cases _ _ _ _ _ ha with ⟨rfl, rfl⟩ | ⟨hne, ha2⟩
        · exact (hcr _ _ hget : thisArtist.key = _)
        · exact hcr _ _ ha2
      · intro r hr
        exact JMap.isSome_get_set _ _ _ _ (hpres r hr)

theorem ensureFold_addInv (S : List String) (checkKey : String) :
    ∀ (L : List String) (d : DBState), AddInv S d →
      AddInv S (L.foldl (ensureArtistAlbumStep checkKey) d) ∧
      (L.foldl (ensureArtistAlbumStep checkKey) d).dbSongs = d.dbSongs ∧
      (L.foldl (ensureArtistAlbumStep checkKey) d).dbAlbums = d.dbAlbums ∧
      (L.foldl (ensureArtistAlbumStep checkKey) d).albumTitleIndex = d.albumTitleIndex := by
  intro L
  induction L with
  | nil => intro d h; exact ⟨h, rfl, rfl, rfl⟩
  | cons a rest ih =>
    intro d h
    obtain ⟨h2, e1, e2, e3⟩ := ensureStep_addInv S checkKey d a h
    obtain ⟨h3, f1, f2, f3⟩ := ih _ h2
    exact ⟨h3, f1.trans e1, f2.trans e2, f3.trans e3⟩

theorem demoteStep_addInv (S common : List String) (d : DBState) (sk : String)
    (h : AddInv S d) :
    AddInv S (demoteSongStep common d sk) ∧
    (demoteSongStep common d sk).dbAlbums = d.dbAlbums ∧
    (demoteSongStep common d sk).dbArtists = d.dbArtists ∧
    (demoteSongStep common d sk).albumTitleIndex = d.albumTitleIndex := by
  obtain ⟨href, ⟨hcs, hca, hcr⟩, hpres⟩ := h
  unfold demoteSongStep
  cases hget : JMap.get d.dbSongs sk with
  | none => exact ⟨⟨href, ⟨hcs, hca, hcr⟩, hpres⟩, rfl, rfl, rfl⟩
  | some sng =>
    dsimp only
    refine ⟨⟨?_, ⟨?_, hca, hcr⟩, hpres⟩, rfl, rfl, rfl⟩
    · intro k2 s hs
      rcases JMap.get_set_cases _ _ _ _ _ hs with ⟨rfl, rfl⟩ | ⟨hne, hs2⟩
      · obtain ⟨⟨a, ha, hmem⟩, hart⟩ := href _ _ hget
        refine ⟨⟨a, ha, hmem⟩, ?_⟩
        intro r hr
        exact hart r (demoteArtists_subset _ _ _ _ hr)
      · exact href _ _ hs2
    · intro k2 s hs
      rcases JMap.get_set_cases _ _ _ _ _ hs with ⟨rfl, rfl⟩ | ⟨hne, hs2⟩
      · exact (hcs _ _ hget : sng.key = _)
      · exact hcs _ _ hs2

theorem demoteFold_addInv (S common : List String) :
    ∀ (L : List String) (d : DBState), AddInv S d →
      AddInv S (L.foldl (demoteSongStep common) d) ∧
      (L.foldl (demoteSongStep common) d).dbAlbums = d.dbAlbums ∧
      (L.foldl (demoteSongStep common) d).dbArtists = d.dbArtists ∧
      (L.foldl (demoteSongStep common) d).albumTitleIndex = d.albumTitleIndex := by
  intro L
  induction L with
  | nil => intro d h; exact ⟨h, rfl, rfl, rfl⟩
  | cons a rest ih =>
    intro d h
    obtain ⟨h2, e1, e2, e3⟩ := demoteStep_addInv S common d a h
    obtain ⟨h3, f1, f2, f3⟩ := ih _ h2
    exact ⟨h3, f1.trans e1, f2.trans e2, f3.trans e3⟩

theorem demoteOuter_addInv (S common songs : List String) :
    ∀ (L : List String) (d : DBState), AddInv S d →
      AddInv S (L.foldl (fun d2 pa => if common.contains pa then d2
        else songs.foldl (demoteSongStep common) d2) d) ∧
      (L.foldl (fun d2 pa => if common.contains pa then d2
        else songs.foldl (demoteSongStep common) d2) d).dbAlbums = d.dbAlbums ∧
      (L.foldl (fun d2 pa => if common.contains pa then d2
        else songs.foldl (demoteSongStep common) d2) d).dbArtists = d.dbArtists ∧
      (L.foldl (fun d2 pa => if common.contains pa then d2
        else songs.foldl (demoteSongStep common) d2) d).albumTitleIndex
        = d.albumTitleIndex := by
  intro L
  induction L with
  | nil => intro d h; exact ⟨h, rfl, rfl, rfl⟩
  | cons a rest ih =>
    intro d h
    simp only [List.foldl_cons]
    by_cases hc : common.contains a = true
    · rw [if_pos hc]
      exact ih _ h
    · rw [if_neg hc]
      obtain ⟨h2, e1, e2, e3⟩ := demoteFold_addInv S common songs d h
      obtain ⟨h3, f1, f2, f3⟩ := ih _ h2
      exact ⟨h3, f1.trans e1, f2.trans e2, f3.trans e3⟩

theorem setAlbum_addInv (S : List String) (d : DBState) (albumKey : String)
    (check check2 : Album)
    (hget : JMap.get d.dbAlbums albumKey = some check)
    (hsongs : check2.songs = check.songs)
    (hkey2 : check2.key = check.key)
    (hinv : AddInv S d) :
    AddInv S { d with dbAlbums := JMap.set d.dbAlbums albumKey check2 } := by
  obtain ⟨href, ⟨hcs, hca, hcr⟩, hpres⟩ := hinv
  refine ⟨?_, ⟨hcs, ?_, hcr⟩, hpres⟩
  · intro k2 s hs
    obtain ⟨⟨a, ha, hmem⟩, hart⟩ := href k2 s hs
    refine ⟨?_, hart⟩
    by_cases he : s.albumId = albumKey
    · rw [he] at ha
      rw [hget] at ha
      obtain rfl : check = a := Option.some_inj.mp ha
      refine ⟨check2, ?_, ?_⟩
      · rw [he]
        exact JMap.get_set_self _ _ _
      · rw [hsongs]
        exact hmem
    · exact ⟨a, by rw [JMap.get_set_ne _ _ _ _ he]; exact ha, hmem⟩
  · intro k2 a ha
    rcases JMap.get_set_cases _ _ _ _ _ ha with ⟨rfl, rfl⟩ | ⟨hne, ha2⟩
    · exact hkey2.trans (hca _ _ hget)
    · exact hca _ _ ha2

theorem considerAlbum_spec (E : Ext) (S : List String) (title : String) (year : Nat)
    (artists secondaryArtists : List String) (vatype dirName : String)
    (dn : Option Nat) (dnm : Option String) (d : DBState) (albumKey : String)
    (hinv : AddInv S d) (hit : AlbumHit)
    (hres : considerAlbum E title year artists secondaryArtists vatype dirName dn dnm d
      albumKey = some hit) :
    AddInv S hit.db ∧ (∃ alb, JMap.get hit.db.dbAlbums hit.slot = some alb) ∧
    hit.album.key = hit.slot ∧
    (∀ r ∈ hit.artists ++ hit.secondaryArtists, r ∈ artists ++ secondaryArtists) := by
  obtain ⟨href, ⟨hcs, hca, hcr⟩, hpres⟩ := hinv
  unfold considerAlbum at hres
  cases hget : JMap.get d.dbAlbums albumKey with
  | none =>
    rw [hget] at hres
    cases hres
  | some check =>
    rw [hget] at hres
    dsimp only at hres
    have hckey : check.key = albumKey := hca _ _ hget
    split_ifs at hres with htitle hyear hva hsame hcommon
    · obtain rfl := Option.some_inj.mp hres
      exact ⟨setAlbum_addInv S d albumKey check _ hget
          (EnsureDiskNums_songs check dn dnm) (EnsureDiskNums_key check dn dnm)
          ⟨href, ⟨hcs, hca, hcr⟩, hpres⟩,
        ⟨_, JMap.get_set_self _ _ _⟩,
        (EnsureDiskNums_key check dn dnm).trans hckey,
        fun r hr => hr⟩
    · obtain rfl := Option.some_inj.mp hres
      obtain ⟨hinv2, e1, e2, e3⟩ :=
        ensureFold_addInv S check.key artists d ⟨href, ⟨hcs, hca, hcr⟩, hpres⟩
      exact ⟨setAlbum_addInv S _ albumKey check _ (by rw [e2]; exact hget)
          (EnsureDiskNums_songs check dn dnm) (EnsureDiskNums_key check dn dnm) hinv2,
        ⟨_, JMap.get_set_self _ _ _⟩,
        (EnsureDiskNums_key check dn dnm).trans hckey,
        fun r hr => hr⟩
    · cases hh : check.songs.head? with
      | none =>
        rw [hh] at hres
        cases hres
      | some s0 =>
        rw [hh] at hres
        dsimp only at hres
        cases hs0 : JMap.get d.dbSongs s0 with
        | none =>
          rw [hs0] at hres
          cases hres
        | some anotherSong =>
          rw [hs0] at hres
          dsimp only at hres
          split_ifs at hres with hdir
          obtain rfl := Option.some_inj.mp hres
          obtain ⟨hinv2, e1, e2, e3⟩ :=
            demoteOuter_addInv S
              (check.primaryArtists.filter (fun x => artists.contains x))
              check.songs check.primaryArtists.reverse d ⟨href, ⟨hcs, hca, hcr⟩, hpres⟩
          exact ⟨setAlbum_addInv S _ albumKey check _ (by rw [e1]; exact hget)
              (EnsureDiskNums_songs check dn dnm) (EnsureDiskNums_key check dn dnm) hinv2,
            ⟨_, JMap.get_set_self _ _ _⟩,
            (EnsureDiskNums_key check dn dnm).trans hckey,
            fun r hr => demoteArtists_subset _ _ _ _ hr⟩
    · cases hh : check.songs.head? with
      | none =>
        rw [hh] at hres
        cases hres
      | some s0 =>
        rw [hh] at hres
        dsimp only at hres
        cases hs0 : JMap.get d.dbSongs s0 with
        | none =>
          rw [hs0] at hres
          cases hres
        | some anotherSong =>
          rw [hs0] at hres
          dsimp only at hres
          split_ifs at hres with hdir
          obtain rfl := Option.some_inj.mp hres
          exact ⟨setAlbum_addInv S d albumKey check _ hget
              (EnsureDiskNums_songs _ dn dnm) (EnsureDiskNums_key _ dn dnm)
              ⟨href, ⟨hcs, hca, hcr⟩, hpres⟩,
            ⟨_, JMap.get_set_self _ _ _⟩,
            (EnsureDiskNums_key _ dn dnm).trans hckey,
            fun r hr => hr⟩
theorem freshAlbum_addInv (E : Ext) (S : List String) (d : DBState) (key : String)
    (album2 : Album) (ti : MMap String String)
    (hfresh : JMap.get d.dbAlbums key = none)
    (hkey : album2.key = key)
    (hinv : AddInv S d) :
    AddInv S ⟨d.dbSongs, JMap.set d.dbAlbums key album2, d.dbArtists, ti,
      d.artistNameIndex⟩ := by
  obtain ⟨href, ⟨hcs, hca, hcr⟩, hpres⟩ := hinv
  refine ⟨?_, ⟨hcs, ?_, hcr⟩, hpres⟩
  · intro k2 s hs
    obtain ⟨⟨a, ha, hmem⟩, hart⟩ := href k2 s hs
    refine ⟨?_, hart⟩
    have hne : s.albumId ≠ key := by
      intro heq
      rw [heq, hfresh] at ha
      cases ha
    exact ⟨a, by rw [JMap.get_set_ne _ _ _ _ hne]; exact ha, hmem⟩
  · intro k2 a ha
    rcases JMap.get_set_cases _ _ _ _ _ ha with ⟨rfl, rfl⟩ | ⟨hne, ha2⟩
    · exact hkey
    · exact hca _ _ ha2

theorem getOrNewAlbumGo_spec (E : Ext) (S : List String) (title : String) (year : Nat)
    (artists secondaryArtists : List String) (vatype dirName : String)
    (dn : Option Nat) (dnm : Option String) :
    ∀ (keys : List String) (d : DBState), AddInv S d →
      (∀ s, JMap.get d.dbAlbums (E.mintAlbumKey s) = none) →
      AddInv S (getOrNewAlbumGo E title year artists secondaryArtists vatype dirName
        dn dnm keys d).db ∧
      (∃ alb, JMap.get (getOrNewAlbumGo E title year artists secondaryArtists vatype
        dirName dn dnm keys d).db.dbAlbums
        (getOrNewAlbumGo E title year artists secondaryArtists vatype dirName
          dn dnm keys d).slot = some alb) ∧
      (getOrNewAlbumGo E title year artists secondaryArtists vatype dirName
        dn dnm keys d).album.key =
        (getOrNewAlbumGo E title year artists secondaryArtists vatype dirName
          dn dnm keys d).slot ∧
      (∀ r ∈ (getOrNewAlbumGo E title year artists secondaryArtists vatype dirName
          dn dnm keys d).artists ++
        (getOrNewAlbumGo E title year artists secondaryArtists vatype dirName
          dn dnm keys d).secondaryArtists, r ∈ artists ++ secondaryArtists) := by
  intro keys
  induction keys with
  | nil =>
    intro d hinv hfresh
    exact ⟨freshAlbum_addInv E S d _ _ _ (hfresh _) (EnsureDiskNums_key _ dn dnm) hinv,
      ⟨_, JMap.get_set_self _ _ _⟩, EnsureDiskNums_key _ dn dnm, fun r hr => hr⟩
  | cons ak rest ih =>
    intro d hinv hfresh
    have hstep : getOrNewAlbumGo E title year artists secondaryArtists vatype dirName
        dn dnm (ak :: rest) d =
        match considerAlbum E title year artists secondaryArtists vatype dirName
          dn dnm d ak with
        | some hit => hit
        | none => getOrNewAlbumGo E title year artists secondaryArtists vatype dirName
            dn dnm rest d := rfl
    cases hc : considerAlbum E title year artists secondaryArtists vatype dirName
        dn dnm d ak with
    | some hit =>
      rw [hc] at hstep
      dsimp only at hstep
      rw [hstep]
      exact considerAlbum_spec E S title year artists secondaryArtists vatype dirName
        dn dnm d ak hinv hit hc
    | none =>
      rw [hc] at hstep
      dsimp only at hstep
      rw [hstep]
      exact ih d hinv hfresh

theorem getOrNewAlbum_spec (E : Ext) (S : List String) (title : String) (year : Nat)
    (artists secondaryArtists : List String) (vatype dirName : String)
    (dn : Option Nat) (dnm : Option String) (d : DBState)
    (hinv : AddInv S d)
    (hfresh : ∀ s, JMap.get d.dbAlbums (E.mintAlbumKey s) = none) :
    AddInv S (getOrNewAlbum E title year artists secondaryArtists vatype dirName
      dn dnm d).db ∧
    (∃ alb, JMap.get (getOrNewAlbum E title year artists secondaryArtists vatype
      dirName dn dnm d).db.dbAlbums
      (getOrNewAlbum E title year artists secondaryArtists vatype dirName
        dn dnm d).slot = some alb) ∧
    (getOrNewAlbum E title year artists secondaryArtists vatype dirName
      dn dnm d).album.key =
      (getOrNewAlbum E title year artists secondaryArtists vatype dirName
        dn dnm d).slot ∧
    (∀ r ∈ (getOrNewAlbum E title year artists secondaryArtists vatype dirName
        dn dnm d).artists ++
      (getOrNewAlbum E title year artists secondaryArtists vatype dirName
        dn dnm d).secondaryArtists, r ∈ artists ++ secondaryArtists) :=
  getOrNewAlbumGo_spec E S title year artists secondaryArtists vatype dirName dn dnm
    ((MMap.get d.albumTitleIndex (E.normalizeName title)).getD []) d hinv hfresh

theorem addStep_presRef (skey albKey : String) (d : DBState) (slot r : String) (x : String)
    (h : ∃ art, JMap.get d.dbArtists r = some art ∧ x ∈ art.songs) :
    ∃ art, JMap.get (addSongToArtistStep skey albKey d slot).dbArtists r = some art ∧
      x ∈ art.songs := by
  obtain ⟨art, hget, hmem⟩ := h
  unfold addSongToArtistStep
  cases hg2 : JMap.get d.dbArtists slot with
  | none => exact ⟨art, hget, hmem⟩
  | some artist =>
    dsimp only
    by_cases hre : r = slot
    · rw [hre] at hget
      rw [hg2] at hget
      obtain rfl : artist = art := Option.some_inj.mp hget
      refine ⟨⟨artist.name, artist.songs ++ [skey],
        if artist.albums.contains albKey then artist.albums
        else artist.albums ++ [albKey], artist.key⟩, ?_,
        List.mem_append_left _ hmem⟩
      rw [hre]
      exact JMap.get_set_self _ _ _
    · exact ⟨art, by rw [JMap.get_set_ne _ _ _ _ hre]; exact hget, hmem⟩

theorem addStep_presSome (skey albKey : String) (d : DBState) (slot r : String)
    (h : (JMap.get d.dbArtists r).isSome = true) :
    (JMap.get (addSongToArtistStep skey albKey d slot).dbArtists r).isSome = true := by
  unfold addSongToArtistStep
  cases hg2 : JMap.get d.dbArtists slot with
  | none => exact h
  | some artist =>
    dsimp only
    exact JMap.isSome_get_set _ _ _ _ h

theorem addStep_fields (skey albKey : String) (d : DBState) (slot : String) :
    (addSongToArtistStep skey albKey d slot).dbSongs = d.dbSongs ∧
    (addSongToArtistStep skey albKey d slot).dbAlbums = d.dbAlbums := by
  unfold addSongToArtistStep
  cases JMap.get d.dbArtists slot with
  | none => exact ⟨rfl, rfl⟩
  | some artist => exact ⟨rfl, rfl⟩

theorem addFold_fields (skey albKey : String) :
    ∀ (L : List String) (d : DBState),
      (L.foldl (addSongToArtistStep skey albKey) d).dbSongs = d.dbSongs ∧
      (L.foldl (addSongToArtistStep skey albKey) d).dbAlbums = d.dbAlbums := by
  intro L
  induction L with
  | nil => intro d; exact ⟨rfl, rfl⟩
  | cons a rest ih =>
    intro d
    obtain ⟨e1, e2⟩ := addStep_fields skey albKey d a
    obtain ⟨f1, f2⟩ := ih (addSongToArtistStep skey albKey d a)
    exact ⟨f1.trans e1, f2.trans e2⟩

theorem addFold_presRef (skey albKey r x : String) :
    ∀ (L : List String) (d : DBState),
      (∃ art, JMap.get d.dbArtists r = some art ∧ x ∈ art.songs) →
      ∃ art, JMap.get (L.foldl (addSongToArtistStep skey albKey) d).dbArtists r
        = some art ∧ x ∈ art.songs := by
  intro L
  induction L with
  | nil => intro d h; exact h
  | cons a rest ih =>
    intro d h
    exact ih _ (addStep_presRef skey albKey d a r x h)

theorem addStep_self (skey albKey : String) (d : DBState) (slot : String)
    (h : (JMap.get d.dbArtists slot).isSome = true) :
    ∃ art, JMap.get (addSongToArtistStep skey albKey d slot).dbArtists slot = some art ∧
      skey ∈ art.songs := by
  obtain ⟨a, ha⟩ := Option.isSome_iff_exists.mp h
  unfold addSongToArtistStep
  rw [ha]
  dsimp only
  exact ⟨_, JMap.get_set_self _ _ _,
    List.mem_append_right _ (List.mem_singleton_self _)⟩

theorem addFold_adds (skey albKey : String) :
    ∀ (L : List String) (d : DBState),
      (∀ r ∈ L, (JMap.get d.dbArtists r).isSome = true) →
      ∀ r ∈ L, ∃ art,
        JMap.get (L.foldl (addSongToArtistStep skey albKey) d).dbArtists r = some art ∧
        skey ∈ art.songs := by
  intro L
  induction L with
  | nil =>
    intro d _ r hr
    cases hr
  | cons a rest ih =>
    intro d hpres r hr
    simp only [List.foldl_cons]
    rcases List.mem_cons.mp hr with rfl | hr2
    · by_cases hmem : r ∈ rest
      · exact ih _ (fun r2 hr3 =>
          addStep_presSome skey albKey d r r2 (hpres r2 (List.mem_cons_of_mem _ hr3)))
          r hmem
      · exact addFold_presRef skey albKey r skey rest _
          (addStep_self skey albKey d r (hpres r (List.mem_cons_self _ _)))
    · exact ih _ (fun r2 hr3 =>
        addStep_presSome skey albKey d a r2 (hpres r2 (List.mem_cons_of_mem _ hr3)))
        r hr2

theorem addAssemble_songRefs (skey albKey : String) (hitdb : DBState) (alb : Album)
    (S : List String) (theSong : Song)
    (hinv : AddInv S hitdb)
    (halbg : JMap.get hitdb.dbAlbums albKey = some alb)
    (hsong_alb : theSong.albumId = albKey)
    (hsong_key : theSong.key = skey)
    (hrefs : ∀ r, r ∈ theSong.artistIds ++ theSong.secondaryIds → r ∈ S) :
    songRefsInv
      (let db3 : DBState := ⟨hitdb.dbSongs, JMap.set hitdb.dbAlbums albKey
          { alb with songs := alb.songs ++ [skey] }, hitdb.dbArtists,
          hitdb.albumTitleIndex, hitdb.artistNameIndex⟩
       let db4 := S.foldl (addSongToArtistStep skey albKey) db3
       ⟨JMap.set db4.dbSongs skey theSong, db4.dbAlbums, db4.dbArtists,
        db4.albumTitleIndex, db4.artistNameIndex⟩) := by
  obtain ⟨href, ⟨hcs, hca, hcr⟩, hpres⟩ := hinv
  intro k2 s hs
  dsimp only at hs ⊢
  by_cases hk2 : k2 = skey
  · rw [hk2] at hs
    rw [JMap.get_set_self] at hs
    obtain rfl : theSong = s := Option.some_inj.mp hs
    constructor
    · refine ⟨{ alb with songs := alb.songs ++ [skey] }, ?_, ?_⟩
      · rw [hsong_alb, (addFold_fields skey albKey S _).2]
        exact JMap.get_set_self _ _ _
      · rw [hsong_key]
        exact List.mem_append_right _ (List.mem_singleton_self _)
    · intro r hr
      obtain ⟨art, hget, hmem⟩ := addFold_adds skey albKey S
        (⟨hitdb.dbSongs, JMap.set hitdb.dbAlbums albKey
          { alb with songs := alb.songs ++ [skey] }, hitdb.dbArtists,
          hitdb.albumTitleIndex, hitdb.artistNameIndex⟩ : DBState)
        (fun r2 hr2 => hpres r2 hr2) r (hrefs r hr)
      refine ⟨art, hget, ?_⟩
      rw [hsong_key]
      exact hmem
  · rw [JMap.get_set_ne _ _ _ _ hk2] at hs
    rw [(addFold_fields skey albKey S _).1] at hs
    obtain ⟨⟨a, ha, hmem⟩, hart⟩ := href _ _ hs
    constructor
    · by_cases he : s.albumId = albKey
      · rw [he] at ha
        rw [halbg] at ha
        obtain rfl : alb = a := Option.some_inj.mp ha
        refine ⟨{ alb with songs := alb.songs ++ [skey] }, ?_,
          List.mem_append_left _ hmem⟩
        rw [he, (addFold_fields skey albKey S _).2]
        exact JMap.get_set_self _ _ _
      · refine ⟨a, ?_, hmem⟩
        rw [(addFold_fields skey albKey S _).2, JMap.get_set_ne _ _ _ _ he]
        exact ha
    · intro r hr
      exact addFold_presRef skey albKey r s.key S _ (hart r hr)

theorem addOrUpdateSong_songRefs (E : Ext) (md : FullMetadata) (db : DBState)
    (hgood : GoodDB db) (hmf : MintFresh E db) :
    ∀ db2, addOrUpdateSong E md db = some db2 → songRefsInv db2 := by
  intro db2 h
  obtain ⟨hg1, hm1, hpairs1, hs1, ha1, ht1, hmono1⟩ :=
    resolveArtists_spec E (mdArtists md) [] db hgood hmf
      (fun p hp => absurd hp (List.not_mem_nil p))
  obtain ⟨hg2, hm2, hpairs2, hs2, ha2, ht2, hmono2⟩ :=
    resolveArtists_spec E (md.moreArtists.getD []) []
      (resolveArtists E (mdArtists md) [] db).2 hg1 hm1
      (fun p hp => absurd hp (List.not_mem_nil p))
  unfold addOrUpdateSong at h
  dsimp only at h
  cases hres : E.getSongKey md.originalPath with
  | none =>
    rw [hres] at h
    exact Option.noConfusion h
  | some skey =>
    rw [hres] at h
    dsimp only at h
    rw [Option.some.injEq] at h
    subst h
    set prim := resolveArtists E (mdArtists md) [] db with hprimd
    set sec := resolveArtists E (md.moreArtists.getD []) [] prim.2 with hsecd
    set hit := getOrNewAlbum E md.album (md.year.getD 0)
      (prim.1.map (fun p => p.2.key)) (sec.1.map (fun p => p.2.key))
      (md.vaType.getD "") (dirname md.originalPath) md.disk md.diskName sec.2 with hhitd
    have hpresS : ∀ r ∈ prim.1.map (fun p => p.1) ++ sec.1.map (fun p => p.1),
        (JMap.get sec.2.dbArtists r).isSome = true := by
      intro r hr
      rcases List.mem_append.mp hr with hr | hr
      · obtain ⟨p, hp, rfl⟩ := List.mem_map.mp hr
        obtain ⟨a, ha⟩ := Option.isSome_iff_exists.mp (hpairs1 p hp).1
        rw [hmono2 _ _ ha]
        rfl
      · obtain ⟨p, hp, rfl⟩ := List.mem_map.mp hr
        exact (hpairs2 p hp).1
    obtain ⟨hinvHit, ⟨alb, halbg⟩, hkeyeq, hrefsHit⟩ :=
      getOrNewAlbum_spec E (prim.1.map (fun p => p.1) ++ sec.1.map (fun p => p.1))
        md.album (md.year.getD 0) (prim.1.map (fun p => p.2.key))
        (sec.1.map (fun p => p.2.key)) (md.vaType.getD "") (dirname md.originalPath)
        md.disk md.diskName sec.2 ⟨hg2.1, hg2.2.1, hpresS⟩ hm2.2.2
    rw [hkeyeq]
    rw [halbg]
    dsimp only
    have hrefs2 : ∀ r, r ∈ hit.artists ++ hit.secondaryArtists →
        r ∈ prim.1.map (fun p => p.1) ++ sec.1.map (fun p => p.1) := by
      intro r hr
      have h3 := hrefsHit r hr
      have hkeyseq1 : prim.1.map (fun p => p.2.key) = prim.1.map (fun p => p.1) :=
        List.map_congr_left (fun p hp => (hpairs1 p hp).2)
      have hkeyseq2 : sec.1.map (fun p => p.2.key) = sec.1.map (fun p => p.1) :=
        List.map_congr_left (fun p hp => (hpairs2 p hp).2)
      rw [hkeyseq1, hkeyseq2] at h3
      exact h3
    exact addAssemble_songRefs skey hit.slot hit.db alb
      (prim.1.map (fun p => p.1) ++ sec.1.map (fun p => p.1))
      ⟨md.originalPath, hit.artists, hit.secondaryArtists, hit.slot,
        md.track + md.disk.getD 0 * 100, md.title, skey, md.variations⟩
      hinvHit halbg rfl rfl hrefs2

/-- C1: for every state satisfying the reachable-state facts (`GoodDB`:
the song-reference invariant, record/key coherence, valid name index)
and minters satisfying `MintFresh`, the invariant "every song's album
lists the song's key in `songs`, and every referenced primary or
secondary artist lists it in `songs`" holds again after a successful
`addOrUpdateSong` and after `delSongByKey`. -/
theorem c1_song_refs_invariant_preserved (E : Ext) (db : DBState)
    (hgood : GoodDB db) (hmf : MintFresh E db) :
    (∀ md db2, addOrUpdateSong E md db = some db2 → songRefsInv db2) ∧
    (∀ k, songRefsInv (delSongByKey E k db).2) :=
  ⟨fun md => addOrUpdateSong_songRefs E md db hgood hmf,
   fun k => delSongByKey_songRefs E k db hgood⟩

/-- C1 witness: the preservation theorem run on the empty database with
the identity minters, at the concrete metadata `mdC4` and a delete of a
missing key. -/
theorem c1_witness :
    songRefsInv ((addOrUpdateSong idExt mdC4 emptyDB).getD emptyDB) ∧
    songRefsInv (delSongByKey idExt "k" emptyDB).2 :=
  ⟨(c1_song_refs_invariant_preserved idExt emptyDB
      ⟨fun k s h => Option.noConfusion h,
       ⟨fun k s h => Option.noConfusion h, fun k a h => Option.noConfusion h,
        fun k r h => Option.noConfusion h⟩,
       fun n k h => Option.noConfusion h⟩
      ⟨fun n1 n2 h => h, fun n h => rfl, fun s => rfl⟩).1 mdC4 _ (by rfl),
   (c1_song_refs_invariant_preserved idExt emptyDB
      ⟨fun k s h => Option.noConfusion h,
       ⟨fun k s h => Option.noConfusion h, fun k a h => Option.noConfusion h,
        fun k r h => Option.noConfusion h⟩,
       fun n k h => Option.noConfusion h⟩
      ⟨fun n1 n2 h => h, fun n h => rfl, fun s => rfl⟩).2 "k"⟩

/-- C2: the invariant "for every artist `r` and album `a ∈ r.albums`,
`r ∈ a.primaryArtists` or some song of `a` lists `r`" is NOT preserved
by `delSongByKey`.  In the reachable state `c2state` the invariant
holds and the delete succeeds, but afterwards artist `Rr` still lists
the surviving `va` album `LA*Rr*2000` in its `albums` while it is not
among that album's (empty) primary artists and the album's remaining
song lists only `Rq`: `delSongByKey` prunes the artist from the album's
`primaryArtists` but never prunes the album from the artist's `albums`.
The repository's own test asserts this invariant for every artist. -/
theorem c2_artist_album_invariant_broken_by_delete :
    c2state.map (fun db =>
      (artistAlbumsOk db, (delSongByKey testExt "S/dir/a1.mp3" db).1,
       artistAlbumsOk (delSongByKey testExt "S/dir/a1.mp3" db).2)) =
      some (true, true, false) ∧
    c2state.map (fun db =>
      let post := (delSongByKey testExt "S/dir/a1.mp3" db).2
      ((JMap.get post.dbArtists "Rr").map Artist.albums,
       (JMap.get post.dbAlbums "LA*Rr*2000").map Album.primaryArtists,
       (JMap.get post.dbAlbums "LA*Rr*2000").map Album.songs,
       (JMap.get post.dbSongs "S/dir/a2.mp3").map (fun s =>
         (s.artistIds, s.secondaryIds)))) =
      some (some ["LA*Rr*2000", "LB*Rr*2001"], some [], some ["S/dir/a2.mp3"],
        some (["Rq"], [])) := by
  refine ⟨?_, ?_⟩ <;> rfl

/-- C3 counterexample: a candidate album with the same normalized title
and year and a different primary-artist set (`[]` vs `["Rb"]`) whose
first song's directory (`/d1`) differs from the incoming song's
directory (`/d2`) is NOT skipped: because its vatype (`va`) equals the
incoming vatype, `getOrNewAlbum` returns it before ever reaching the
directory check, and the two-song run ends with one album instead of
two. -/
theorem c3_counterexample :
    (addOrUpdateSong testExt mdVa1 emptyDB).map (fun db1 =>
      ((JMap.get db1.dbAlbums "LT*va*2000").map (fun a =>
        (a.title, a.year, a.vatype, a.primaryArtists, a.songs)),
       decide (dirname "/d1/x.mp3" = dirname "/d2/y.mp3"),
       (considerAlbum testExt "T" 2000 ["Rb"] [] "va" "/d2" none none db1
         "LT*va*2000").isSome)) =
    some (some ("T", 2000, "va", [], ["S/d1/x.mp3"]), false, true) ∧
    ((addOrUpdateSong testExt mdVa1 emptyDB).bind
      (addOrUpdateSong testExt mdVa2)).map (fun db =>
        (JMap.size db.dbAlbums,
         (JMap.get db.dbAlbums "LT*va*2000").map Album.songs)) =
    some (1, some ["S/d1/x.mp3", "S/d2/y.mp3"]) := by
  refine ⟨?_, ?_⟩ <;> rfl

/-- C3 (amended): the stated candidate rules hold for candidates that
fail the earlier VA-type match.  For a candidate with the same
normalized title and year, a different primary-artist set, and whose
vatype does not equal a non-empty incoming vatype: if the candidate's
first song exists and its directory differs from the incoming song's
directory, the candidate is skipped (the loop iteration yields `none`,
with no state change); if the directories match and the intersection of
the primary-artist sets is empty, that same candidate is returned (same
slot, same key, same songs) with its vatype set to `va` and its
primary-artist list cleared, leaving songs and artists untouched. -/
theorem c3_candidate_rules_amended (E : Ext) (title : String) (year : Nat)
    (artists secondaryArtists : List String) (vatype dirName : String)
    (dn : Option Nat) (dnm : Option String) (db : DBState) (ck : String)
    (check : Album) (s0k : String) (s0 : Song)
    (hck : JMap.get db.dbAlbums ck = some check)
    (ht : E.normalizeName check.title = E.normalizeName title)
    (hy : check.year = year)
    (hv : ¬(check.vatype = vatype ∧ vatype ≠ ""))
    (hne : arraySetEqual check.primaryArtists artists = false)
    (hs0 : check.songs.head? = some s0k)
    (hs0g : JMap.get db.dbSongs s0k = some s0) :
    (dirname s0.path ≠ dirName →
      considerAlbum E title year artists secondaryArtists vatype dirName dn dnm
        db ck = none) ∧
    (dirname s0.path = dirName →
      check.primaryArtists.filter (fun x => artists.contains x) = [] →
      ∃ alb2 db2,
        considerAlbum E title year artists secondaryArtists vatype dirName dn dnm
          db ck = some ⟨ck, alb2, artists, secondaryArtists, db2⟩ ∧
        alb2.vatype = "va" ∧ alb2.primaryArtists = [] ∧ alb2.key = check.key ∧
        alb2.songs = check.songs ∧ JMap.get db2.dbAlbums ck = some alb2 ∧
        db2.dbSongs = db.dbSongs ∧ db2.dbArtists = db.dbArtists) := by
  constructor
  · intro hdir
    unfold considerAlbum
    rw [hck]
    simp [ht, hy, hv, hne, hs0, hs0g, hdir]
  · intro hdir hcommon
    refine ⟨EnsureDiskNums { check with vatype := "va", primaryArtists := [] } dn dnm,
      { db with dbAlbums := (JMap.set db.dbAlbums ck
          (EnsureDiskNums { check with vatype := "va", primaryArtists := [] } dn dnm)) },
      ?_, ?_, ?_, ?_, ?_, ?_, rfl, rfl⟩
    · unfold considerAlbum
      rw [hck]
      simp [ht, hy, hv, hne, hs0, hs0g, hdir, hcommon]
      intro x hx hxa
      exact absurd hxa (by simpa using List.filter_eq_nil_iff.mp hcommon x hx)
    · exact (EnsureDiskNums_fields _ dn dnm).2.2.2.1
    · exact (EnsureDiskNums_fields _ dn dnm).2.1
    · exact (EnsureDiskNums_fields _ dn dnm).2.2.2.2.2
    · exact (EnsureDiskNums_fields _ dn dnm).2.2.2.2.1
    · exact JMap.get_set_self _ _ _

/-- C3 witness: the amended rules instantiated on `c3wDB` — a
different-directory incoming song is skipped, and a same-directory
incoming song with disjoint artists turns the candidate into a `va`
album. -/
theorem c3_witness :
    considerAlbum testExt "T" 2000 ["Rb"] [] "" "/other" none none c3wDB "L1" =
      none ∧
    (∃ alb2 db2,
      considerAlbum testExt "T" 2000 ["Rb"] [] "" "/d1" none none c3wDB "L1" =
        some ⟨"L1", alb2, ["Rb"], [], db2⟩ ∧
      alb2.vatype = "va" ∧ alb2.primaryArtists = [] ∧
      alb2.key = ("L1" : String) ∧ alb2.songs = ["s0"] ∧
      JMap.get db2.dbAlbums "L1" = some alb2 ∧
      db2.dbSongs = c3wDB.dbSongs ∧ db2.dbArtists = c3wDB.dbArtists) :=
  ⟨(c3_candidate_rules_amended testExt "T" 2000 ["Rb"] [] "" "/other" none none
      c3wDB "L1" _ "s0" _ rfl rfl rfl (by simp) rfl rfl rfl).1 (by decide),
   (c3_candidate_rules_amended testExt "T" 2000 ["Rb"] [] "" "/d1" none none
      c3wDB "L1" _ "s0" _ rfl rfl rfl (by simp) rfl rfl rfl).2 (by rfl) rfl⟩

/-- C4 counterexample: for metadata whose `moreArtists` repeats the
primary artist name, `addOrUpdateSong` pushes the song key twice onto
the artist's `songs` while `delSongByKey` deduplicates the artist set
and splices only one occurrence, so add-then-delete leaves a dangling
artist (and its name-index entry) instead of the empty state. -/
theorem c4_counterexample :
    (addOrUpdateSong testExt mdDup emptyDB).map (fun db =>
      let r := delSongByKey testExt "S/p/s.mp3" db
      (r.1, r.2.dbSongs.isEmpty, r.2.dbAlbums.isEmpty,
       (JMap.get r.2.dbArtists "RBob").map Artist.songs,
       r.2.artistNameIndex)) =
    some (true, true, true, some ["S/p/s.mp3"], [("Bob", "RBob")]) := by rfl

/-- C4 (amended): starting from the empty database, for metadata whose
song path resolves to a key and in which no two of the song's artist
names (primary list together with `moreArtists`) share the same
normalized form, `addOrUpdateSong` followed by `delSongByKey` on the
resulting song key succeeds and restores the empty state exactly —
`dbSongs`, `dbAlbums`, `dbArtists`, `albumTitleIndex` and
`artistNameIndex` are all empty again.  (The key minters are assumed
injective, as intended for the hash-based minters.) -/
theorem c4_add_del_restores_empty_amended (E : Ext) (md : FullMetadata) (skey : String)
    (hInj : ∀ n1 n2, E.mintArtistKey n1 = E.mintArtistKey n2 → n1 = n2)
    (hRes : E.getSongKey md.originalPath = some skey)
    (hNodup : ((mdArtists md ++ md.moreArtists.getD []).map
      (fun n => E.normalizeName n)).Nodup) :
    ∀ db2, addOrUpdateSong E md emptyDB = some db2 →
      delSongByKey E skey db2 = (true, emptyDB) := by
  intro db2 hdb2
  have hmap : ((mdArtists md).map (fun n => E.normalizeName n) ++
      (md.moreArtists.getD []).map (fun n => E.normalizeName n)).Nodup := by
    simpa using hNodup
  have hnd1 : ((mdArtists md).map (fun n => E.normalizeName n)).Nodup :=
    (List.nodup_append.mp hmap).1
  have hnd2 : ((md.moreArtists.getD []).map (fun n => E.normalizeName n)).Nodup :=
    (List.nodup_append.mp hmap).2.1
  have hdisj : ((mdArtists md).map (fun n => E.normalizeName n)).Disjoint
      ((md.moreArtists.getD []).map (fun n => E.normalizeName n)) :=
    (List.nodup_append.mp hmap).2.2
  simp only [addOrUpdateSong] at hdb2
  rw [resolveArtists_from_fresh E hInj (mdArtists md) [] emptyDB
    (fun _ _ => rfl) (fun _ _ => rfl) hnd1] at hdb2
  simp only [emptyDB, List.nil_append] at hdb2
  rw [resolveArtists_from_fresh E hInj (md.moreArtists.getD []) _ _ ?_ ?_ hnd2] at hdb2
  rotate_left
  · intro n hn
    rw [JMap.get_eq_none_iff]
    simp only [List.map_map]
    intro hcon
    refine hdisj ?_ (List.mem_map_of_mem _ hn)
    obtain ⟨n2, hn2, he⟩ := List.mem_map.mp hcon
    have he2 : E.normalizeName n2 = E.normalizeName n := by
      simpa [Function.comp] using he
    exact he2 ▸ List.mem_map_of_mem (fun n => E.normalizeName n) hn2
  · intro n hn
    rw [JMap.get_eq_none_iff]
    simp only [List.map_map]
    intro hcon
    obtain ⟨n2, hn2, he⟩ := List.mem_map.mp hcon
    have he2 : E.normalizeName n2 = E.normalizeName n :=
      hInj _ _ (by simpa [Function.comp, artistEntry] using he)
    refine hdisj ?_ (List.mem_map_of_mem _ hn)
    exact he2 ▸ List.mem_map_of_mem (fun n => E.normalizeName n) hn2
  simp only [List.map_map, Function.comp_def, artistEntry, List.nil_append] at hdb2
  rw [getOrNewAlbum_no_candidates E md.album (md.year.getD 0) _ _ _ _ _ _ _ ?_] at hdb2
  rw [hRes] at hdb2
  simp only [EnsureDiskNums_key, JMap.get_set_self] at hdb2
  simp only [EnsureDiskNums_year, EnsureDiskNums_primaryArtists, EnsureDiskNums_title,
    EnsureDiskNums_vatype, EnsureDiskNums_songs, List.nil_append] at hdb2
  rw [← List.map_append, ← List.map_append, ← List.map_append] at hdb2
  rw [addSongToArtist_fold E skey _ hInj _ [] _ ?_ ?_ hNodup] at hdb2
  simp only [List.nil_append] at hdb2
  rw [Option.some.injEq] at hdb2
  subst hdb2
  have hinjK : Function.Injective E.mintArtistKey := fun a b hab => hInj _ _ hab
  have hkeys : ((mdArtists md ++ md.moreArtists.getD []).map
      (fun x => E.mintArtistKey (E.normalizeName x))).Nodup := by
    simpa [List.map_map, Function.comp_def] using hNodup.map hinjK
  simp only [delSongByKey]
  rw [JMap.get_set_self]
  dsimp only
  rw [JMap.get_set_self]
  dsimp only
  rw [if_pos (show ([skey].contains skey) = true by simp)]
  simp only [List.erase_cons_head, eq_self_iff_true, if_true]
  rw [MMap.get_set_nil]
  dsimp only
  simp only [MMap.remove_set_nil, JMap.del_set_self, JMap.set_set_self, JMap.del_nil]
  rw [← List.map_append, jsSetOf_eq_self _ hkeys]
  rw [delArtists_fold E skey _ hInj _ _ ?_ ?_ hNodup]
  · rfl
  all_goals try rfl
  all_goals intro n hn
  all_goals rfl

/-- C4 witness: the amended round trip run on `mdC4` (artist `Bob`,
secondary artist `Carl`) — deleting the added song from the resulting
state returns `true` and the empty database. -/
theorem c4_witness :
    delSongByKey testExt "S/m/song.mp3"
      ((addOrUpdateSong testExt mdC4 emptyDB).getD emptyDB) = (true, emptyDB) :=
  c4_add_del_restores_empty_amended testExt mdC4 "S/m/song.mp3"
    (by
      rintro ⟨l1⟩ ⟨l2⟩ h
      have h2 : (Char.ofNat 82) :: l1 = (Char.ofNat 82) :: l2 := congrArg String.data h
      exact congrArg String.mk (by simpa using h2))
    (by rfl) (by decide) _ (by rfl)

/-- C5: under a hash with a forced collision (`collHash` sends every
seed-0 probe to slot 5), the artist minter resolves the collision by
chained rehashing — `a` and `b` get the distinct keys `R5` and `R9` and
re-minting returns the first claimant's key — but the album minter does
not: it stores its claimed slot into `artistHash` instead of
`albumHash` (line 820 of the source), so `albumHash` stays empty and the
two distinct colliding summaries `X*a*1` and `Y*b*2` both receive the
key `L5`. -/
theorem c5_album_minter_collision_bug :
    c5artistRun.map Prod.fst = some ["R5", "R9", "R5", "R9"] ∧
    c5albumRun.map Prod.fst = some ["L5", "L5"] ∧
    c5albumRun.map (fun r => r.2.albumHash) = some [] := by
  refine ⟨?_, ?_, ?_⟩ <;> rfl

/-- C6: a song on disk 1 with track 50 gets `track = 50 + 1*100 = 150`
(the encoding of the claim holds), but `getDiskPiece` renders
`/Disk 2/` for it because the source computes the disk number with
`Math.round(track/100)` (= 2 at 150) instead of `floor(track/100)`
(= 1); the track digits themselves are `50` as claimed. -/
theorem c6_disk_piece_round_bug :
    ((addOrUpdateSong testExt mdDisk emptyDB).bind (fun db =>
      JMap.get db.dbSongs "S/d/s.mp3")).map Song.track = some (50 + 1 * 100) ∧
    ((addOrUpdateSong testExt mdDisk emptyDB).bind (fun db =>
      (JMap.get db.dbSongs "S/d/s.mp3").bind (fun s =>
        (JMap.get db.dbAlbums s.albumId).map (fun a => getDiskPiece a s)))) =
      some "/Disk 2/" ∧
    jsRoundDiv100 150 = 2 ∧ (150 : Nat) / 100 = 1 ∧ trackStr 150 = "50" := by
  refine ⟨?_, ?_, ?_, ?_, ?_⟩ <;> rfl

/-- C7: `save` followed by `load` against the same persistence backend
succeeds and reproduces a flat database with the same song, album and
artist counts (for any backend contents, any prior in-memory state and
any AFI roster). -/
theorem c7_save_load_roundtrip (name : String) (db db0 : DBState)
    (indices : List (String × Nat)) (persist : Persist) :
    (load name (save name db indices persist) db0).1 = true ∧
    (getFlatDatabase (load name (save name db indices persist) db0).2).songs.length =
      (getFlatDatabase db).songs.length ∧
    (getFlatDatabase (load name (save name db indices persist) db0).2).albums.length =
      (getFlatDatabase db).albums.length ∧
    (getFlatDatabase (load name (save name db indices persist) db0).2).artists.length =
      (getFlatDatabase db).artists.length := by
  simp [load, save, JMap.get_set_self, getFlatDatabase]

/-- C8: when the persisted blob is missing, unpickles to a non-object,
or lacks any of the six required fields, `load` returns `false` and the
in-memory state is returned untouched. -/
theorem c8_load_failure_leaves_state (name : String) (persist : Persist)
    (db : DBState) :
    (JMap.get persist name = none → load name persist db = (false, db)) ∧
    (JMap.get persist name = some PersistVal.scalar →
      load name persist db = (false, db)) ∧
    (∀ f, JMap.get persist name = some (PersistVal.obj f) →
      f.dbSongs = none ∨ f.dbAlbums = none ∨ f.dbArtists = none ∨
        f.albumTitleIndex = none ∨ f.artistNameIndex = none ∨ f.indices = none →
      load name persist db = (false, db)) := by
  refine ⟨fun h => by simp [load, h], fun h => by simp [load, h],
    fun f hf hmiss => ?_⟩
  rcases f with ⟨s, al, ar, ti, ni, ix⟩
  cases s <;> cases al <;> cases ar <;> cases ti <;> cases ni <;> cases ix <;>
    simp_all [load]

/-- C8 witness: the three failure shapes at concrete inputs. -/
theorem c8_witness :
    load "audio-database" ([] : Persist) emptyDB = (false, emptyDB) ∧
    load "audio-database" [("audio-database", PersistVal.scalar)] emptyDB =
      (false, emptyDB) ∧
    load "audio-database"
      [("audio-database",
        PersistVal.obj ⟨none, some [], some [], some [], some [], some []⟩)]
      emptyDB = (false, emptyDB) :=
  ⟨(c8_load_failure_leaves_state "audio-database" [] emptyDB).1 rfl,
   (c8_load_failure_leaves_state "audio-database"
      [("audio-database", PersistVal.scalar)] emptyDB).2.1 rfl,
   (c8_load_failure_leaves_state "audio-database"
      [("audio-database",
        PersistVal.obj ⟨none, some [], some [], some [], some [], some []⟩)]
      emptyDB).2.2 _ rfl (Or.inl rfl)⟩

/-- C9 counterexample: payload `[1,2]` is stored under keys `a` and `b`
by `putMany` (both `get`s return it), key `b` is then re-bound to a new
payload, and `del` of `a` leaves the `BLOB-0` payload file on disk even
though no key maps to it any more — the reverse `pathToKeys` map still
lists the re-bound key `b`, so "deleted exactly when no other key still
references the payload" fails as stated. -/
theorem c9_counterexample :
    BlobStore.get "a" c9s1 = some [1, 2] ∧
    BlobStore.get "b" c9s1 = some [1, 2] ∧
    (∀ kv ∈ c9s3.keyToPath, kv.2 ≠ BlobStore.blobName 0) ∧
    JMap.get c9s3.files (BlobStore.blobName 0) = some [1, 2] := by
  refine ⟨rfl, rfl, ?_, rfl⟩
  decide

/-- C9 (amended): in a forward/reverse-consistent store (no key has
been re-bound since its payload was stored), `delete(k)` removes only
`k`'s mapping, deletes the payload file exactly when no other key still
references the payload, leaves every other payload file alone, and
`get` on any remaining key of the same payload still returns the
payload bytes. -/
theorem c9_delete_refcount_amended (s : BlobStore.State) (k f : String)
    (d : List Nat) (hc : BlobStore.RevCons s)
    (hk : JMap.get s.keyToPath k = some f)
    (hf : JMap.get s.files f = some d) :
    JMap.get (BlobStore.del [k] s).keyToPath k = none ∧
    (∀ k2, k2 ≠ k →
      JMap.get (BlobStore.del [k] s).keyToPath k2 = JMap.get s.keyToPath k2) ∧
    (JMap.get (BlobStore.del [k] s).files f = none ↔
      ∀ k2, k2 ≠ k → JMap.get s.keyToPath k2 ≠ some f) ∧
    (∀ g, g ≠ f →
      JMap.get (BlobStore.del [k] s).files g = JMap.get s.files g) ∧
    (∀ k2, k2 ≠ k → JMap.get s.keyToPath k2 = some f →
      BlobStore.get k2 (BlobStore.del [k] s) = some d) := by
  obtain ⟨ks, hks, hkin⟩ := (hc.2 f k).mpr hk
  have hnd : List.Nodup ks := hc.1 (f, ks) (JMap.get_mem _ _ _ hks)
  have hdel : BlobStore.del [k] s =
      let st2 : BlobStore.State := ⟨s.seqNum, JMap.del s.keyToPath k,
        MMap.remove s.pathToKeys f k, s.files⟩
      let st3 : BlobStore.State :=
        match MMap.get st2.pathToKeys f with
        | none => { st2 with files := JMap.del st2.files f }
        | some _ => st2
      { st3 with seqNum := st3.seqNum + 1 } := by
    unfold BlobStore.del
    simp only [List.foldl_cons, List.foldl_nil]
    rw [hk]
  have hrem : MMap.remove s.pathToKeys f k =
      if ks.erase k = [] then JMap.del s.pathToKeys f
      else JMap.set s.pathToKeys f (ks.erase k) := by
    unfold MMap.remove
    rw [show JMap.get s.pathToKeys f = some ks from hks]
  by_cases he : ks.erase k = []
  · -- the reverse key-set empties: the payload file is removed
    have hnone : MMap.get (JMap.del s.pathToKeys f) f = none := JMap.get_del_self _ _
    have hdel2 : BlobStore.del [k] s =
        ⟨s.seqNum + 1, JMap.del s.keyToPath k, JMap.del s.pathToKeys f,
         JMap.del s.files f⟩ := by
      rw [hdel]
      simp only [hrem, if_pos he, hnone]
    have hnoother : ∀ k2, k2 ≠ k → JMap.get s.keyToPath k2 ≠ some f := by
      intro k2 hne hcon
      obtain ⟨ks2, hks2, hk2in⟩ := (hc.2 f k2).mpr hcon
      rw [hks] at hks2
      cases hks2
      exact absurd (he ▸ (List.mem_erase_of_ne hne).mpr hk2in) (List.not_mem_nil k2)
    refine ⟨?_, ?_, ?_, ?_, ?_⟩
    · rw [hdel2]; exact JMap.get_del_self _ _
    · intro k2 hne; rw [hdel2]; exact JMap.get_del_ne _ _ _ hne
    · rw [hdel2]
      exact ⟨fun _ => hnoother, fun _ => JMap.get_del_self _ _⟩
    · intro g hg; rw [hdel2]; exact JMap.get_del_ne _ _ _ hg
    · intro k2 hne hcon; exact absurd hcon (hnoother k2 hne)
  · -- another key still references the payload: the file stays
    have hsome : MMap.get (JMap.set s.pathToKeys f (ks.erase k)) f =
        some (ks.erase k) := JMap.get_set_self _ _ _
    have hdel2 : BlobStore.del [k] s =
        ⟨s.seqNum + 1, JMap.del s.keyToPath k,
         JMap.set s.pathToKeys f (ks.erase k), s.files⟩ := by
      rw [hdel]
      simp only [hrem, if_neg he, hsome]
    obtain ⟨x, hx⟩ := List.exists_mem_of_ne_nil _ he
    have hxne : x ≠ k ∧ x ∈ ks := (List.Nodup.mem_erase_iff hnd).mp hx
    have hxfwd : JMap.get s.keyToPath x = some f :=
      (hc.2 f x).mp ⟨ks, hks, hxne.2⟩
    refine ⟨?_, ?_, ?_, ?_, ?_⟩
    · rw [hdel2]; exact JMap.get_del_self _ _
    · intro k2 hne; rw [hdel2]; exact JMap.get_del_ne _ _ _ hne
    · rw [hdel2]
      constructor
      · intro habs
        rw [hf] at habs
        cases habs
      · intro hall
        exact absurd hxfwd (hall x hxne.1)
    · intro g _; rw [hdel2]
    · intro k2 hne hcon
      unfold BlobStore.get
      rw [hdel2]
      have : JMap.get (JMap.del s.keyToPath k) k2 = some f := by
        rw [JMap.get_del_ne _ _ _ hne]; exact hcon
      rw [this]
      exact hf

/-- C9 witness: the amended refcount rules applied to the two-key store
`c9s1` (payload `[1,2]` under keys `a` and `b`): deleting `a` keeps the
payload file because `b` still references it, and `get b` still returns
the bytes. -/
theorem c9_witness :
    JMap.get (BlobStore.del ["a"] c9s1).keyToPath "a" = none ∧
    JMap.get (BlobStore.del ["a"] c9s1).keyToPath "b" =
      JMap.get c9s1.keyToPath "b" ∧
    (JMap.get (BlobStore.del ["a"] c9s1).files "BLOB-0" = none ↔
      ∀ k2, k2 ≠ "a" → JMap.get c9s1.keyToPath k2 ≠ some "BLOB-0") ∧
    BlobStore.get "b" (BlobStore.del ["a"] c9s1) = some [1, 2] := by
  have hc : BlobStore.RevCons c9s1 := by
    have hpk : c9s1.pathToKeys = [("BLOB-0", ["a", "b"])] := rfl
    have hkp : c9s1.keyToPath = [("a", "BLOB-0"), ("b", "BLOB-0")] := rfl
    constructor
    · intro p hp
      rw [hpk] at hp
      simp only [List.mem_singleton] at hp
      subst hp
      decide
    · intro f k
      constructor
      · rintro ⟨ks, hks, hkin⟩
        rw [hpk] at hks
        simp only [MMap.get, JMap.get] at hks
        split_ifs at hks with h1
        · cases hks
          rw [hkp]
          simp only [JMap.get]
          simp only [List.mem_cons, List.not_mem_nil, or_false] at hkin
          rcases hkin with h | h
          · subst h; simp [← h1]
          · subst h; simp [← h1]
      · intro hk2
        rw [hkp] at hk2
        simp only [JMap.get] at hk2
        rw [hpk]
        split_ifs at hk2 with h1 h2
        · cases hk2
          subst h1
          exact ⟨["a", "b"], by simp [MMap.get, JMap.get], by decide⟩
        · cases hk2
          subst h2
          exact ⟨["a", "b"], by simp [MMap.get, JMap.get], by decide⟩
  obtain ⟨h1, h2, h3, _, h5⟩ :=
    c9_delete_refcount_amended c9s1 "a" "BLOB-0" [1, 2] hc rfl rfl
  exact ⟨h1, h2 "b" (by decide), h3, h5 "b" (by decide) rfl⟩

/-- C10: deleting a key that is not in `dbSongs` returns `false` and
leaves the whole database state unchanged. -/
theorem c10_del_missing_key_noop (E : Ext) (k : String) (db : DBState)
    (h : JMap.get db.dbSongs k = none) : delSongByKey E k db = (false, db) := by
  unfold delSongByKey
  rw [h]

/-- C10 witness. -/
theorem c10_witness :
    JMap.get emptyDB.dbSongs "S1" = none ∧
    delSongByKey testExt "S1" emptyDB = (false, emptyDB) :=
  ⟨rfl, c10_del_missing_key_noop testExt "S1" emptyDB rfl⟩

end AudioDB
